import Mathlib

/-
  Shallow embedding of the Pegmatite/parserlib PEG engine (source/parser.cpp)
  and proofs about it.

  Conventions of the embedding:
  * characters are natural-number code points; the input is a `List Nat`;
  * the position iterator is an index into the input list (`m_pos.m_it - m_begin`);
  * rules are identified by natural-number ids; a grammar maps each id to its
    body expression and to whether a parse proc (action) is registered for it
    (the `_parse_proc_map` / `rule::m_parse_proc` of the source);
  * the mutually recursive evaluation functions of the source
    (`_expr::parse_non_term`, `_expr::parse_term`, `_context::parse_non_term`,
    `_context::parse_term`, `_context::_parse_non_term`, `_context::_parse_term`,
    the grow loops of `_context::parse_non_term` / `parse_term`, and
    `_context::parse_ws`) become one fuel-indexed function `run` over a
    `Call` tag; running out of fuel yields `Res.oof`;
  * the `_lr_ok` exception becomes the `Res.lrOk` result constructor, which
    every evaluation step propagates exactly where C++ stack unwinding would;
  * `Ctx.wsCalls` is a ghost counter instrumenting `_context::parse_ws`
    invocations; no source control flow depends on it.
-/

namespace Pegmatite

/-- Position of the source: iterator index, 1-based line and column
(class `pos` of parser.hpp as used by parser.cpp). -/
structure Pos where
  it : Nat
  line : Nat
  col : Nat
deriving DecidableEq, Repr

/-- Match record `(rule, begin, end)` (`_match` of parser.cpp). -/
structure MatchRec where
  rule : Nat
  b : Pos
  e : Pos
deriving DecidableEq, Repr

/-- Parsing context (`_context`): current position, furthest-error position,
match vector, plus the ghost whitespace-invocation counter. The input and its
bounds are passed separately to every operation. -/
structure Ctx where
  pos : Pos
  errorPos : Pos
  mlog : List MatchRec
  wsCalls : Nat
deriving DecidableEq, Repr

/-- End-of-input test (`_context::end`): the iterator equals the end iterator. -/
def atEnd (inp : List Nat) (c : Ctx) : Bool :=
  c.pos.it == inp.length

/-- Current symbol (`_context::symbol`); only meaningful when not at end. -/
def symbol (inp : List Nat) (c : Ctx) : Nat :=
  inp.getD c.pos.it 0

/-- Furthest-error update (`_context::set_error_pos`): replace the recorded
error position only when the current iterator strictly exceeds it. -/
def setErrorPos (c : Ctx) : Ctx :=
  if c.errorPos.it < c.pos.it then { c with errorPos := c.pos } else c

/-- Advance one column (`_context::next_col`). -/
def nextCol (c : Ctx) : Ctx :=
  { c with pos := ⟨c.pos.it + 1, c.pos.line, c.pos.col + 1⟩ }

/-- Advance one line (`_context::next_line`): bump line, reset column. -/
def nextLine (c : Ctx) : Ctx :=
  { c with pos := ⟨c.pos.it, c.pos.line + 1, 1⟩ }

/-- Snapshot (`_state`): position and match-vector length. -/
structure Snap where
  pos : Pos
  len : Nat
deriving DecidableEq, Repr

/-- Take a snapshot (`_state::_state`). -/
def snap (c : Ctx) : Snap :=
  ⟨c.pos, c.mlog.length⟩

/-- Restore a snapshot (`_context::restore`): reset the position and truncate
the match vector to the recorded length. -/
def restoreC (st : Snap) (c : Ctx) : Ctx :=
  { c with pos := st.pos, mlog := c.mlog.take st.len }

/-- Rule evaluation mode (`rule::_PARSE`, `_REJECT`, `_ACCEPT`). -/
inductive Mode where
  | parse
  | reject
  | accept
deriving DecidableEq, Repr

/-- Per-parse rule state (`rule::_state`): mode and last-attempt position. -/
structure RuleState where
  mode : Mode
  lastPos : Option Nat
deriving DecidableEq, Repr

/-- Modelled from the spec: the initial per-parse rule state. The header
parser.hpp, which declares `rule::_state` and its initial value, is not among
the provided sources; the spec states the initial state is `(PARSE, ⊥)` where
`⊥` is a position no real input position ever equals, so the last-attempt
position is modelled as an `Option Nat` that starts out `none`. -/
def initRuleState : RuleState :=
  ⟨Mode.parse, none⟩

/-- Full interpreter state: the context plus every rule's per-parse state. -/
structure PState where
  ctx : Ctx
  rules : Nat → RuleState

/-- Overwrite one rule's state (`r.m_state = ...`). -/
def setRule (i : Nat) (st : RuleState) (s : PState) : PState :=
  { s with rules := fun j => if j = i then st else s.rules j }

/-- Overwrite one rule's mode only (`r.m_state.m_mode = ...`). -/
def setRuleMode (i : Nat) (m : Mode) (s : PState) : PState :=
  setRule i ⟨m, (s.rules i).lastPos⟩ s

/-- Overwrite one rule's last-attempt position only (`r.m_state.m_pos = ...`). -/
def setRulePos (i : Nat) (p : Option Nat) (s : PState) : PState :=
  setRule i ⟨(s.rules i).mode, p⟩ s

/-- Apply a context transformation to the interpreter state. -/
def withCtx (f : Ctx → Ctx) (s : PState) : PState :=
  { s with ctx := f s.ctx }

/-- Append a match record (`m_matches.push_back`). -/
def pushMatch (m : MatchRec) (s : PState) : PState :=
  withCtx (fun c => { c with mlog := c.mlog ++ [m] }) s

/-- Expression algebra (the closed set of `_expr` subclasses of parser.cpp). -/
inductive Expr where
  | chr (c : Nat)
  | strE (cs : List Nat)
  | setE (bits : List Bool)
  | anyE
  | eofE
  | termE (e : Expr)
  | loop0 (e : Expr)
  | loop1 (e : Expr)
  | opt (e : Expr)
  | andE (e : Expr)
  | notE (e : Expr)
  | nl (e : Expr)
  | seqE (l r : Expr)
  | choice (l r : Expr)
  | ref (r : Nat)
deriving DecidableEq, Repr

/-- Grammar: rule bodies, which rules carry a registered parse proc, and the
id of the whitespace rule held by the context (`_context::m_ws`). -/
structure Grammar where
  body : Nat → Expr
  hasProc : Nat → Bool
  ws : Nat

/-- Result of one evaluation: success, failure, the in-flight `_lr_ok`
exception carrying the id of the rule whose left recursion completed, or
out of fuel. The carried state is the mutable state at that exit point. -/
inductive Res where
  | ok (s : PState)
  | fail (s : PState)
  | lrOk (r : Nat) (s : PState)
  | oof

/-- State carried by a result, when there is one. -/
def Res.state? : Res → Option PState
  | Res.ok s => some s
  | Res.fail s => some s
  | Res.lrOk _ s => some s
  | Res.oof => none

/-- Continue after a `parse_ws()` call: C++ ignores the boolean outcome and
proceeds with the mutated context, while an in-flight exception (or fuel
exhaustion) propagates. -/
def Res.cont (r : Res) (f : PState → Res) : Res :=
  match r with
  | Res.ok s => f s
  | Res.fail s => f s
  | Res.lrOk q s => Res.lrOk q s
  | Res.oof => Res.oof

/-- Character match (`_char::_parse`). -/
def charParse (inp : List Nat) (ch : Nat) (c : Ctx) : Bool × Ctx :=
  if !(atEnd inp c) && (symbol inp c == ch) then (true, nextCol c)
  else (false, setErrorPos c)

/-- Set match (`_set::_parse`): the bitmap lookup `ch < m_set.size() && m_set[ch]`
is `List.getD bits ch false`. -/
def setParse (inp : List Nat) (bits : List Bool) (c : Ctx) : Bool × Ctx :=
  if !(atEnd inp c) && bits.getD (symbol inp c) false then (true, nextCol c)
  else (false, setErrorPos c)

/-- Any-character match (`_any::parse_term`). -/
def anyParse (inp : List Nat) (c : Ctx) : Bool × Ctx :=
  if !(atEnd inp c) then (true, nextCol c)
  else (false, setErrorPos c)

/-- End-of-input match (`_eof::parse_term`): no movement, no error update. -/
def eofParse (inp : List Nat) (c : Ctx) : Bool × Ctx :=
  (atEnd inp c, c)

/-- Main loop of `_string::_parse`: consume matching characters one by one;
stop (leaving the position where it is) at end of input or on a mismatch. -/
def strLoop (inp : List Nat) : List Nat → Ctx → Bool × Ctx
  | [], c => (true, c)
  | ch :: rest, c =>
    if !(atEnd inp c) && (symbol inp c == ch) then strLoop inp rest (nextCol c)
    else (false, c)

/-- String match (`_string::_parse`): run the loop; on failure record the
furthest error at the stop position. The position is not restored. -/
def strParse (inp : List Nat) (cs : List Nat) (c : Ctx) : Bool × Ctx :=
  let p := strLoop inp cs c
  if p.1 then (true, p.2) else (false, setErrorPos p.2)

/-- Lift a raw character-level matcher result into an evaluation result. -/
def prim2res (p : Bool × Ctx) (s : PState) : Res :=
  if p.1 then Res.ok { s with ctx := p.2 } else Res.fail { s with ctx := p.2 }

/-- Tags for the mutually recursive evaluation functions of parser.cpp:
expression evaluation in each mode, the engine entry points
(`_context::parse_non_term` / `parse_term`), the inner body evaluations
(`_context::_parse_non_term` / `_parse_term`), the grow loops inside the
engine entry points, the shared rest-loop of `_loop0` / `_loop1`, and
`_context::parse_ws`. -/
inductive Call where
  | exprNT (e : Expr)
  | exprT (e : Expr)
  | ruleNT (r : Nat)
  | ruleT (r : Nat)
  | innerNT (r : Nat)
  | innerT (r : Nat)
  | growNT (r : Nat)
  | growT (r : Nat)
  | starNT (e : Expr)
  | starT (e : Expr)
  | wsCall

/-- One step of the interpreter: given an oracle `rec` for strictly deeper
calls, evaluate a call on a state. This is a line-by-line transcription of
parser.cpp; every `Res.lrOk` arm mirrors C++ exception propagation. -/
def runStep (G : Grammar) (inp : List Nat) (rec : Call → PState → Res) :
    Call → PState → Res := fun c s =>
  match c with
  | Call.exprNT e =>
    match e with
    | Expr.chr ch => prim2res (charParse inp ch s.ctx) s
    | Expr.strE cs => prim2res (strParse inp cs s.ctx) s
    | Expr.setE bits => prim2res (setParse inp bits s.ctx) s
    | Expr.anyE => prim2res (anyParse inp s.ctx) s
    | Expr.eofE => prim2res (eofParse inp s.ctx) s
    | Expr.termE e1 => rec (Call.exprT e1) s
    | Expr.loop0 e1 =>
      Res.cont (rec Call.wsCall s) (fun s1 =>
        let st := snap s1.ctx
        match rec (Call.exprNT e1) s1 with
        | Res.fail s2 => Res.ok (withCtx (restoreC st) s2)
        | Res.ok s2 => rec (Call.starNT e1) s2
        | Res.lrOk q s2 => Res.lrOk q s2
        | Res.oof => Res.oof)
    | Expr.loop1 e1 =>
      Res.cont (rec Call.wsCall s) (fun s1 =>
        match rec (Call.exprNT e1) s1 with
        | Res.fail s2 => Res.fail s2
        | Res.ok s2 => rec (Call.starNT e1) s2
        | Res.lrOk q s2 => Res.lrOk q s2
        | Res.oof => Res.oof)
    | Expr.opt e1 =>
      let st := snap s.ctx
      match rec (Call.exprNT e1) s with
      | Res.fail s2 => Res.ok (withCtx (restoreC st) s2)
      | Res.ok s2 => Res.ok s2
      | Res.lrOk q s2 => Res.lrOk q s2
      | Res.oof => Res.oof
    | Expr.andE e1 =>
      let st := snap s.ctx
      match rec (Call.exprNT e1) s with
      | Res.ok s2 => Res.ok (withCtx (restoreC st) s2)
      | Res.fail s2 => Res.fail (withCtx (restoreC st) s2)
      | Res.lrOk q s2 => Res.lrOk q s2
      | Res.oof => Res.oof
    | Expr.notE e1 =>
      let st := snap s.ctx
      match rec (Call.exprNT e1) s with
      | Res.ok s2 => Res.fail (withCtx (restoreC st) s2)
      | Res.fail s2 => Res.ok (withCtx (restoreC st) s2)
      | Res.lrOk q s2 => Res.lrOk q s2
      | Res.oof => Res.oof
    | Expr.nl e1 =>
      match rec (Call.exprNT e1) s with
      | Res.ok s2 => Res.ok (withCtx nextLine s2)
      | Res.fail s2 => Res.fail s2
      | Res.lrOk q s2 => Res.lrOk q s2
      | Res.oof => Res.oof
    | Expr.seqE l r =>
      match rec (Call.exprNT l) s with
      | Res.fail s2 => Res.fail s2
      | Res.ok s2 => Res.cont (rec Call.wsCall s2) (fun s3 => rec (Call.exprNT r) s3)
      | Res.lrOk q s2 => Res.lrOk q s2
      | Res.oof => Res.oof
    | Expr.choice l r =>
      let st := snap s.ctx
      match rec (Call.exprNT l) s with
      | Res.ok s2 => Res.ok s2
      | Res.fail s2 => rec (Call.exprNT r) (withCtx (restoreC st) s2)
      | Res.lrOk q s2 => Res.lrOk q s2
      | Res.oof => Res.oof
    | Expr.ref i => rec (Call.ruleNT i) s
  | Call.exprT e =>
    match e with
    | Expr.chr ch => prim2res (charParse inp ch s.ctx) s
    | Expr.strE cs => prim2res (strParse inp cs s.ctx) s
    | Expr.setE bits => prim2res (setParse inp bits s.ctx) s
    | Expr.anyE => prim2res (anyParse inp s.ctx) s
    | Expr.eofE => prim2res (eofParse inp s.ctx) s
    | Expr.termE e1 => rec (Call.exprT e1) s
    | Expr.loop0 e1 =>
      let st := snap s.ctx
      match rec (Call.exprT e1) s with
      | Res.fail s2 => Res.ok (withCtx (restoreC st) s2)
      | Res.ok s2 => rec (Call.starT e1) s2
      | Res.lrOk q s2 => Res.lrOk q s2
      | Res.oof => Res.oof
    | Expr.loop1 e1 =>
      match rec (Call.exprT e1) s with
      | Res.fail s2 => Res.fail s2
      | Res.ok s2 => rec (Call.starT e1) s2
      | Res.lrOk q s2 => Res.lrOk q s2
      | Res.oof => Res.oof
    | Expr.opt e1 =>
      let st := snap s.ctx
      match rec (Call.exprT e1) s with
      | Res.fail s2 => Res.ok (withCtx (restoreC st) s2)
      | Res.ok s2 => Res.ok s2
      | Res.lrOk q s2 => Res.lrOk q s2
      | Res.oof => Res.oof
    | Expr.andE e1 =>
      let st := snap s.ctx
      match rec (Call.exprT e1) s with
      | Res.ok s2 => Res.ok (withCtx (restoreC st) s2)
      | Res.fail s2 => Res.fail (withCtx (restoreC st) s2)
      | Res.lrOk q s2 => Res.lrOk q s2
      | Res.oof => Res.oof
    | Expr.notE e1 =>
      let st := snap s.ctx
      match rec (Call.exprT e1) s with
      | Res.ok s2 => Res.fail (withCtx (restoreC st) s2)
      | Res.fail s2 => Res.ok (withCtx (restoreC st) s2)
      | Res.lrOk q s2 => Res.lrOk q s2
      | Res.oof => Res.oof
    | Expr.nl e1 =>
      match rec (Call.exprT e1) s with
      | Res.ok s2 => Res.ok (withCtx nextLine s2)
      | Res.fail s2 => Res.fail s2
      | Res.lrOk q s2 => Res.lrOk q s2
      | Res.oof => Res.oof
    | Expr.seqE l r =>
      match rec (Call.exprT l) s with
      | Res.fail s2 => Res.fail s2
      | Res.ok s2 => rec (Call.exprT r) s2
      | Res.lrOk q s2 => Res.lrOk q s2
      | Res.oof => Res.oof
    | Expr.choice l r =>
      let st := snap s.ctx
      match rec (Call.exprT l) s with
      | Res.ok s2 => Res.ok s2
      | Res.fail s2 => rec (Call.exprT r) (withCtx (restoreC st) s2)
      | Res.lrOk q s2 => Res.lrOk q s2
      | Res.oof => Res.oof
    | Expr.ref i => rec (Call.ruleT i) s
  | Call.starNT e1 =>
    Res.cont (rec Call.wsCall s) (fun s1 =>
      let st := snap s1.ctx
      match rec (Call.exprNT e1) s1 with
      | Res.fail s2 => Res.ok (withCtx (restoreC st) s2)
      | Res.ok s2 => rec (Call.starNT e1) s2
      | Res.lrOk q s2 => Res.lrOk q s2
      | Res.oof => Res.oof)
  | Call.starT e1 =>
    let st := snap s.ctx
    match rec (Call.exprT e1) s with
    | Res.fail s2 => Res.ok (withCtx (restoreC st) s2)
    | Res.ok s2 => rec (Call.starT e1) s2
    | Res.lrOk q s2 => Res.lrOk q s2
    | Res.oof => Res.oof
  | Call.ruleNT r =>
    let old := s.rules r
    let newPos := s.ctx.pos.it
    let s1 := setRulePos r (some newPos) s
    match old.mode with
    | Mode.parse =>
      if old.lastPos = some newPos then
        match rec (Call.innerNT r) (setRuleMode r Mode.reject s1) with
        | Res.ok s3 =>
          match rec (Call.growNT r) (setRuleMode r Mode.accept s3) with
          | Res.ok s5 => Res.lrOk r (setRule r old s5)
          | Res.fail s5 => Res.fail s5
          | Res.lrOk q s5 => Res.lrOk q s5
          | Res.oof => Res.oof
        | Res.fail s3 => Res.fail (setRule r old s3)
        | Res.lrOk q s3 => Res.lrOk q s3
        | Res.oof => Res.oof
      else
        match rec (Call.innerNT r) s1 with
        | Res.ok s3 => Res.ok (setRule r old s3)
        | Res.fail s3 => Res.fail (setRule r old s3)
        | Res.lrOk q s3 =>
          if q = r then Res.ok (setRule r old s3) else Res.lrOk q (setRule r old s3)
        | Res.oof => Res.oof
    | Mode.reject =>
      if old.lastPos = some newPos then Res.fail (setRule r old s1)
      else
        match rec (Call.innerNT r) (setRuleMode r Mode.parse s1) with
        | Res.ok s3 => Res.ok (setRule r old (setRuleMode r Mode.reject s3))
        | Res.fail s3 => Res.fail (setRule r old (setRuleMode r Mode.reject s3))
        | Res.lrOk q s3 => Res.lrOk q s3
        | Res.oof => Res.oof
    | Mode.accept =>
      if old.lastPos = some newPos then Res.ok (setRule r old s1)
      else
        match rec (Call.innerNT r) (setRuleMode r Mode.parse s1) with
        | Res.ok s3 => Res.ok (setRule r old (setRuleMode r Mode.accept s3))
        | Res.fail s3 => Res.fail (setRule r old (setRuleMode r Mode.accept s3))
        | Res.lrOk q s3 => Res.lrOk q s3
        | Res.oof => Res.oof
  | Call.ruleT r =>
    let old := s.rules r
    let newPos := s.ctx.pos.it
    let s1 := setRulePos r (some newPos) s
    match old.mode with
    | Mode.parse =>
      if old.lastPos = some newPos then
        match rec (Call.innerT r) (setRuleMode r Mode.reject s1) with
        | Res.ok s3 =>
          match rec (Call.growT r) (setRuleMode r Mode.accept s3) with
          | Res.ok s5 => Res.lrOk r (setRule r old s5)
          | Res.fail s5 => Res.fail s5
          | Res.lrOk q s5 => Res.lrOk q s5
          | Res.oof => Res.oof
        | Res.fail s3 => Res.fail (setRule r old s3)
        | Res.lrOk q s3 => Res.lrOk q s3
        | Res.oof => Res.oof
      else
        match rec (Call.innerT r) s1 with
        | Res.ok s3 => Res.ok (setRule r old s3)
        | Res.fail s3 => Res.fail (setRule r old s3)
        | Res.lrOk q s3 =>
          if q = r then Res.ok (setRule r old s3) else Res.lrOk q (setRule r old s3)
        | Res.oof => Res.oof
    | Mode.reject =>
      if old.lastPos = some newPos then Res.fail (setRule r old s1)
      else
        match rec (Call.innerT r) (setRuleMode r Mode.parse s1) with
        | Res.ok s3 => Res.ok (setRule r old (setRuleMode r Mode.reject s3))
        | Res.fail s3 => Res.fail (setRule r old (setRuleMode r Mode.reject s3))
        | Res.lrOk q s3 => Res.lrOk q s3
        | Res.oof => Res.oof
    | Mode.accept =>
      if old.lastPos = some newPos then Res.ok (setRule r old s1)
      else
        match rec (Call.innerT r) (setRuleMode r Mode.parse s1) with
        | Res.ok s3 => Res.ok (setRule r old (setRuleMode r Mode.accept s3))
        | Res.fail s3 => Res.fail (setRule r old (setRuleMode r Mode.accept s3))
        | Res.lrOk q s3 => Res.lrOk q s3
        | Res.oof => Res.oof
  | Call.innerNT r =>
    if G.hasProc r then
      let b := s.ctx.pos
      match rec (Call.exprNT (G.body r)) s with
      | Res.ok s2 => Res.ok (pushMatch ⟨r, b, s2.ctx.pos⟩ s2)
      | Res.fail s2 => Res.fail s2
      | Res.lrOk q s2 => Res.lrOk q s2
      | Res.oof => Res.oof
    else rec (Call.exprNT (G.body r)) s
  | Call.innerT r =>
    if G.hasProc r then
      let b := s.ctx.pos
      match rec (Call.exprT (G.body r)) s with
      | Res.ok s2 => Res.ok (pushMatch ⟨r, b, s2.ctx.pos⟩ s2)
      | Res.fail s2 => Res.fail s2
      | Res.lrOk q s2 => Res.lrOk q s2
      | Res.oof => Res.oof
    else rec (Call.exprT (G.body r)) s
  | Call.growNT r =>
    let st := snap s.ctx
    match rec (Call.innerNT r) (setRulePos r (some s.ctx.pos.it) s) with
    | Res.fail s2 => Res.ok (withCtx (restoreC st) s2)
    | Res.ok s2 => rec (Call.growNT r) s2
    | Res.lrOk q s2 => Res.lrOk q s2
    | Res.oof => Res.oof
  | Call.growT r =>
    let st := snap s.ctx
    match rec (Call.innerT r) (setRulePos r (some s.ctx.pos.it) s) with
    | Res.fail s2 => Res.ok (withCtx (restoreC st) s2)
    | Res.ok s2 => rec (Call.growT r) s2
    | Res.lrOk q s2 => Res.lrOk q s2
    | Res.oof => Res.oof
  | Call.wsCall =>
    rec (Call.ruleT G.ws) (withCtx (fun cc => { cc with wsCalls := cc.wsCalls + 1 }) s)

/-- Fuel-indexed interpreter: `run G inp n c s` evaluates call `c` on state
`s` with recursion depth at most `n`. -/
def run (G : Grammar) (inp : List Nat) : Nat → Call → PState → Res
  | 0 => fun _ _ => Res.oof
  | n + 1 => runStep G inp (run G inp n)

/-- Error kinds (`ERROR_SYNTAX_ERROR`, `ERROR_INVALID_EOF`). -/
inductive ErrKind where
  | synErr
  | invalidEof
deriving DecidableEq, Repr

/-- Error record (`error`): begin, end, kind. -/
structure Err where
  b : Pos
  e : Pos
  kind : ErrKind
deriving DecidableEq, Repr

/-- Successor position (`_next_pos`). -/
def nextPos (p : Pos) : Pos :=
  ⟨p.it + 1, p.line, p.col + 1⟩

/-- Syntax error at the furthest-error position (`_syntax_error`). -/
def synError (c : Ctx) : Err :=
  ⟨c.errorPos, nextPos c.errorPos, ErrKind.synErr⟩

/-- Invalid-EOF error (`_eof_error`). -/
def eofError (c : Ctx) : Err :=
  ⟨c.errorPos, c.errorPos, ErrKind.invalidEof⟩

/-- Initial interpreter state of a `parse` call: position and error position
at the input begin, empty match vector, all rule states initial. -/
def initState : PState :=
  ⟨⟨⟨0, 1, 1⟩, ⟨0, 1, 1⟩, [], 0⟩, fun _ => initRuleState⟩

/-- Action dispatch (`_context::do_parse_procs`): invoke each recorded match's
parse proc in order. Invoking an unregistered (null) proc is undefined
behaviour in C++ and is modelled as `none`. -/
def doParseProcs (G : Grammar) : List MatchRec → Option (List MatchRec)
  | [] => some []
  | m :: rest =>
    if G.hasProc m.rule then (doParseProcs G rest).map (fun l => m :: l) else none

/-- Outcome of the driver: failure with the emitted error list, success
carrying the dispatched actions (`none` when dispatch would invoke a null
proc), an `_lr_ok` exception escaping `parse`, or fuel exhaustion. -/
inductive DriverRes where
  | failed (errs : List Err)
  | succeeded (dispatched : Option (List MatchRec))
  | exn (r : Nat)
  | oof
deriving DecidableEq, Repr

/-- Driver (`parse` of parser.cpp): leading whitespace, grammar rule in
non-terminal mode, trailing whitespace, end-of-input check, action pass. -/
def parseInput (fuel : Nat) (G : Grammar) (inp : List Nat) (g : Nat) : DriverRes :=
  match run G inp fuel Call.wsCall initState with
  | Res.oof => DriverRes.oof
  | Res.lrOk q _ => DriverRes.exn q
  | Res.ok s1 | Res.fail s1 =>
    match run G inp fuel (Call.ruleNT g) s1 with
    | Res.oof => DriverRes.oof
    | Res.lrOk q _ => DriverRes.exn q
    | Res.fail s2 => DriverRes.failed [synError s2.ctx]
    | Res.ok s2 =>
      match run G inp fuel Call.wsCall s2 with
      | Res.oof => DriverRes.oof
      | Res.lrOk q _ => DriverRes.exn q
      | Res.ok s3 | Res.fail s3 =>
        if atEnd inp s3.ctx then DriverRes.succeeded (doParseProcs G s3.ctx.mlog)
        else if s3.ctx.errorPos.it < inp.length then DriverRes.failed [synError s3.ctx]
        else DriverRes.failed [eofError s3.ctx]

/-- Constructor tag of a result: 0 ok, 1 fail, 2 lrOk, 3 out of fuel. -/
def resTag : Res → Nat
  | Res.ok _ => 0
  | Res.fail _ => 1
  | Res.lrOk _ _ => 2
  | Res.oof => 3

/-- Final iterator index of a result, when there is a state. -/
def resPosIt (r : Res) : Option Nat :=
  (Res.state? r).map (fun s => s.ctx.pos.it)

/-- Rule id carried by an in-flight left-recursion completion signal. -/
def resLr : Res → Option Nat
  | Res.lrOk q _ => some q
  | _ => none

/-- Final mode of rule `i`, when the result has a state. -/
def resRuleMode (r : Res) (i : Nat) : Option Mode :=
  (Res.state? r).map (fun s => (s.rules i).mode)

/-- Final match-log length, when the result has a state. -/
def resMLogLen (r : Res) : Option Nat :=
  (Res.state? r).map (fun s => s.ctx.mlog.length)

/-- Position at index `k` on line 1. -/
def posAt (k : Nat) : Pos :=
  ⟨k, 1, 1 + k⟩

/-- Context evolution invariant between two contexts `c1` (before) and `c2`
(after): the furthest-error position never decreases, the match log never
shrinks below its initial length, and the property that every logged match
has a registered parse proc is preserved. -/
def CtxLe (G : Grammar) (c1 c2 : Ctx) : Prop :=
  c1.errorPos.it ≤ c2.errorPos.it ∧ c1.mlog.length ≤ c2.mlog.length ∧
    ((∀ m ∈ c1.mlog, G.hasProc m.rule = true) → ∀ m ∈ c2.mlog, G.hasProc m.rule = true)

theorem ctxLe_refl (G : Grammar) (c : Ctx) : CtxLe G c c :=
  ⟨le_refl _, le_refl _, fun h => h⟩

theorem ctxLe_trans {G : Grammar} {c1 c2 c3 : Ctx} (h1 : CtxLe G c1 c2)
    (h2 : CtxLe G c2 c3) : CtxLe G c1 c3 :=
  ⟨h1.1.trans h2.1, h1.2.1.trans h2.2.1, fun h => h2.2.2 (h1.2.2 h)⟩

theorem ctxLe_nextCol (G : Grammar) (c : Ctx) : CtxLe G c (nextCol c) :=
  ⟨le_refl _, le_refl _, fun h => h⟩

theorem ctxLe_nextLine (G : Grammar) (c : Ctx) : CtxLe G c (nextLine c) :=
  ⟨le_refl _, le_refl _, fun h => h⟩

theorem ctxLe_setErrorPos (G : Grammar) (c : Ctx) : CtxLe G c (setErrorPos c) := by
  unfold setErrorPos
  split
  · exact ⟨le_of_lt (by assumption), le_refl _, fun h => h⟩
  · exact ctxLe_refl G c

theorem ctxLe_strLoop (G : Grammar) (inp : List Nat) (cs : List Nat) :
    ∀ c : Ctx, CtxLe G c (strLoop inp cs c).2 := by
  induction cs with
  | nil => intro c; exact ctxLe_refl G c
  | cons ch rest ih =>
    intro c
    unfold strLoop
    split
    · exact ctxLe_trans (ctxLe_nextCol G c) (ih (nextCol c))
    · exact ctxLe_refl G c

theorem ctxLe_strParse (G : Grammar) (inp : List Nat) (cs : List Nat) (c : Ctx) :
    CtxLe G c (strParse inp cs c).2 := by
  unfold strParse
  dsimp only
  split
  · exact ctxLe_strLoop G inp cs c
  · exact ctxLe_trans (ctxLe_strLoop G inp cs c) (ctxLe_setErrorPos G _)

theorem ctxLe_charParse (G : Grammar) (inp : List Nat) (ch : Nat) (c : Ctx) :
    CtxLe G c (charParse inp ch c).2 := by
  unfold charParse
  split
  · exact ctxLe_nextCol G c
  · exact ctxLe_setErrorPos G c

theorem ctxLe_setParse (G : Grammar) (inp : List Nat) (bits : List Bool) (c : Ctx) :
    CtxLe G c (setParse inp bits c).2 := by
  unfold setParse
  split
  · exact ctxLe_nextCol G c
  · exact ctxLe_setErrorPos G c

theorem ctxLe_anyParse (G : Grammar) (inp : List Nat) (c : Ctx) :
    CtxLe G c (anyParse inp c).2 := by
  unfold anyParse
  split
  · exact ctxLe_nextCol G c
  · exact ctxLe_setErrorPos G c

theorem ctxLe_eofParse (G : Grammar) (inp : List Nat) (c : Ctx) :
    CtxLe G c (eofParse inp c).2 :=
  ctxLe_refl G c

theorem ctxLe_restore {G : Grammar} {c1 c2 : Ctx} (h : CtxLe G c1 c2) :
    CtxLe G c1 (restoreC (snap c1) c2) := by
  refine ⟨h.1, ?_, ?_⟩
  · show c1.mlog.length ≤ (c2.mlog.take c1.mlog.length).length
    rw [List.length_take]
    exact le_min (le_refl _) h.2.1
  · intro hall m hm
    exact h.2.2 hall m (List.take_subset _ _ hm)

/-- State evolution invariant, lifted from contexts. -/
def StLe (G : Grammar) (s1 s2 : PState) : Prop :=
  CtxLe G s1.ctx s2.ctx

theorem stLe_refl (G : Grammar) (s : PState) : StLe G s s :=
  ctxLe_refl G s.ctx

theorem stLe_trans {G : Grammar} {s1 s2 s3 : PState} (h1 : StLe G s1 s2)
    (h2 : StLe G s2 s3) : StLe G s1 s3 :=
  ctxLe_trans h1 h2

theorem stle_restore {G : Grammar} {s1 s2 : PState} (h : StLe G s1 s2) :
    StLe G s1 (withCtx (restoreC (snap s1.ctx)) s2) :=
  ctxLe_restore h

theorem stle_push {G : Grammar} {s : PState} (m : MatchRec)
    (hm : G.hasProc m.rule = true) : StLe G s (pushMatch m s) := by
  refine ⟨le_refl _, by simp [pushMatch, withCtx], ?_⟩
  intro hall x hx
  rcases List.mem_append.1 hx with h1 | h1
  · exact hall x h1
  · rw [List.mem_singleton.1 h1]
    exact hm

/-- Result invariant: whatever state a result carries extends the entry state
in the `StLe` sense. -/
def ResInv (G : Grammar) (s : PState) (r : Res) : Prop :=
  ∀ s2, r.state? = some s2 → StLe G s s2

theorem resInv_ok {G : Grammar} {s s2 : PState} (h : StLe G s s2) :
    ResInv G s (Res.ok s2) := by
  intro s3 h3
  cases Option.some.inj h3
  exact h

theorem resInv_fail {G : Grammar} {s s2 : PState} (h : StLe G s s2) :
    ResInv G s (Res.fail s2) := by
  intro s3 h3
  cases Option.some.inj h3
  exact h

theorem resInv_lrOk {G : Grammar} {s s2 : PState} (q : Nat) (h : StLe G s s2) :
    ResInv G s (Res.lrOk q s2) := by
  intro s3 h3
  cases Option.some.inj h3
  exact h

theorem resInv_oof {G : Grammar} {s : PState} : ResInv G s Res.oof := by
  intro s2 h2
  cases h2

theorem resInv_weaken {G : Grammar} {s sx : PState} {r : Res} (h : StLe G s sx)
    (hr : ResInv G sx r) : ResInv G s r :=
  fun s2 h2 => stLe_trans h (hr s2 h2)

theorem resInv_prim2res {G : Grammar} {s : PState} {p : Bool × Ctx}
    (h : CtxLe G s.ctx p.2) : ResInv G s (prim2res p s) := by
  unfold prim2res
  split
  · exact resInv_ok h
  · exact resInv_fail h

theorem stle_wsBump (G : Grammar) (s : PState) :
    StLe G s (withCtx (fun cc => { cc with wsCalls := cc.wsCalls + 1 }) s) :=
  ⟨le_refl _, le_refl _, fun h => h⟩

/-- One interpreter step preserves the context-evolution invariant, assuming
recursive calls do. -/
theorem runStep_inv (G : Grammar) (inp : List Nat) (rec : Call → PState → Res)
    (hrec : ∀ c s, ResInv G s (rec c s)) :
    ∀ c s, ResInv G s (runStep G inp rec c s) := by
  have hOk : ∀ c1 s1 s2, rec c1 s1 = Res.ok s2 → StLe G s1 s2 := by
    intro c1 s1 s2 h
    exact hrec c1 s1 s2 (by rw [h]; rfl)
  have hFail : ∀ c1 s1 s2, rec c1 s1 = Res.fail s2 → StLe G s1 s2 := by
    intro c1 s1 s2 h
    exact hrec c1 s1 s2 (by rw [h]; rfl)
  have hLr : ∀ c1 s1 q s2, rec c1 s1 = Res.lrOk q s2 → StLe G s1 s2 := by
    intro c1 s1 q s2 h
    exact hrec c1 s1 s2 (by rw [h]; rfl)
  intro c s
  cases c with
  | exprNT e =>
    cases e with
    | chr ch => exact resInv_prim2res (ctxLe_charParse G inp ch s.ctx)
    | strE cs => exact resInv_prim2res (ctxLe_strParse G inp cs s.ctx)
    | setE bits => exact resInv_prim2res (ctxLe_setParse G inp bits s.ctx)
    | anyE => exact resInv_prim2res (ctxLe_anyParse G inp s.ctx)
    | eofE => exact resInv_prim2res (ctxLe_eofParse G inp s.ctx)
    | termE e1 => exact hrec (Call.exprT e1) s
    | loop0 e1 =>
      simp only [runStep]
      cases hws : rec Call.wsCall s with
      | ok s1 =>
        simp only [Res.cont]
        cases h1 : rec (Call.exprNT e1) s1 with
        | fail s2 => exact resInv_ok ((stLe_trans (hOk _ _ _ hws) (stle_restore (hFail _ _ _ h1))))
        | ok s2 => exact resInv_weaken ((stLe_trans (hOk _ _ _ hws) (hOk _ _ _ h1))) (hrec _ s2)
        | lrOk q s2 => exact resInv_lrOk q ((stLe_trans (hOk _ _ _ hws) (hLr _ _ _ _ h1)))
        | oof => exact resInv_oof
      | fail s1 =>
        simp only [Res.cont]
        cases h1 : rec (Call.exprNT e1) s1 with
        | fail s2 => exact resInv_ok ((stLe_trans (hFail _ _ _ hws) (stle_restore (hFail _ _ _ h1))))
        | ok s2 => exact resInv_weaken ((stLe_trans (hFail _ _ _ hws) (hOk _ _ _ h1))) (hrec _ s2)
        | lrOk q s2 => exact resInv_lrOk q ((stLe_trans (hFail _ _ _ hws) (hLr _ _ _ _ h1)))
        | oof => exact resInv_oof
      | lrOk q s1 => exact resInv_lrOk q (hLr _ _ _ _ hws)
      | oof => exact resInv_oof
    | loop1 e1 =>
      simp only [runStep]
      cases hws : rec Call.wsCall s with
      | ok s1 =>
        simp only [Res.cont]
        cases h1 : rec (Call.exprNT e1) s1 with
        | fail s2 => exact resInv_fail ((stLe_trans (hOk _ _ _ hws) (hFail _ _ _ h1)))
        | ok s2 => exact resInv_weaken ((stLe_trans (hOk _ _ _ hws) (hOk _ _ _ h1))) (hrec _ s2)
        | lrOk q s2 => exact resInv_lrOk q ((stLe_trans (hOk _ _ _ hws) (hLr _ _ _ _ h1)))
        | oof => exact resInv_oof
      | fail s1 =>
        simp only [Res.cont]
        cases h1 : rec (Call.exprNT e1) s1 with
        | fail s2 => exact resInv_fail ((stLe_trans (hFail _ _ _ hws) (hFail _ _ _ h1)))
        | ok s2 => exact resInv_weaken ((stLe_trans (hFail _ _ _ hws) (hOk _ _ _ h1))) (hrec _ s2)
        | lrOk q s2 => exact resInv_lrOk q ((stLe_trans (hFail _ _ _ hws) (hLr _ _ _ _ h1)))
        | oof => exact resInv_oof
      | lrOk q s1 => exact resInv_lrOk q (hLr _ _ _ _ hws)
      | oof => exact resInv_oof
    | opt e1 =>
      simp only [runStep]
      cases h1 : rec (Call.exprNT e1) s with
      | fail s2 => exact resInv_ok (stle_restore (hFail _ _ _ h1))
      | ok s2 => exact resInv_ok (hOk _ _ _ h1)
      | lrOk q s2 => exact resInv_lrOk q (hLr _ _ _ _ h1)
      | oof => exact resInv_oof
    | andE e1 =>
      simp only [runStep]
      cases h1 : rec (Call.exprNT e1) s with
      | ok s2 => exact resInv_ok (stle_restore (hOk _ _ _ h1))
      | fail s2 => exact resInv_fail (stle_restore (hFail _ _ _ h1))
      | lrOk q s2 => exact resInv_lrOk q (hLr _ _ _ _ h1)
      | oof => exact resInv_oof
    | notE e1 =>
      simp only [runStep]
      cases h1 : rec (Call.exprNT e1) s with
      | ok s2 => exact resInv_fail (stle_restore (hOk _ _ _ h1))
      | fail s2 => exact resInv_ok (stle_restore (hFail _ _ _ h1))
      | lrOk q s2 => exact resInv_lrOk q (hLr _ _ _ _ h1)
      | oof => exact resInv_oof
    | nl e1 =>
      simp only [runStep]
      cases h1 : rec (Call.exprNT e1) s with
      | ok s2 => exact resInv_ok ((stLe_trans (hOk _ _ _ h1) (ctxLe_nextLine G s2.ctx)))
      | fail s2 => exact resInv_fail (hFail _ _ _ h1)
      | lrOk q s2 => exact resInv_lrOk q (hLr _ _ _ _ h1)
      | oof => exact resInv_oof
    | seqE l r =>
      simp only [runStep]
      cases h1 : rec (Call.exprNT l) s with
      | fail s2 => exact resInv_fail (hFail _ _ _ h1)
      | ok s2 =>
        dsimp only
        cases hws : rec Call.wsCall s2 with
        | ok s3 => exact resInv_weaken (((stLe_trans (hOk _ _ _ h1) (hOk _ _ _ hws)))) (hrec _ s3)
        | fail s3 => exact resInv_weaken (((stLe_trans (hOk _ _ _ h1) (hFail _ _ _ hws)))) (hrec _ s3)
        | lrOk q s3 => exact resInv_lrOk q ((stLe_trans (hOk _ _ _ h1) (hLr _ _ _ _ hws)))
        | oof => exact resInv_oof
      | lrOk q s2 => exact resInv_lrOk q (hLr _ _ _ _ h1)
      | oof => exact resInv_oof
    | choice l r =>
      simp only [runStep]
      cases h1 : rec (Call.exprNT l) s with
      | ok s2 => exact resInv_ok (hOk _ _ _ h1)
      | fail s2 => exact resInv_weaken (stle_restore (hFail _ _ _ h1)) (hrec _ _)
      | lrOk q s2 => exact resInv_lrOk q (hLr _ _ _ _ h1)
      | oof => exact resInv_oof
    | ref i => exact hrec (Call.ruleNT i) s
  | exprT e =>
    cases e with
    | chr ch => exact resInv_prim2res (ctxLe_charParse G inp ch s.ctx)
    | strE cs => exact resInv_prim2res (ctxLe_strParse G inp cs s.ctx)
    | setE bits => exact resInv_prim2res (ctxLe_setParse G inp bits s.ctx)
    | anyE => exact resInv_prim2res (ctxLe_anyParse G inp s.ctx)
    | eofE => exact resInv_prim2res (ctxLe_eofParse G inp s.ctx)
    | termE e1 => exact hrec (Call.exprT e1) s
    | loop0 e1 =>
      simp only [runStep]
      cases h1 : rec (Call.exprT e1) s with
      | fail s2 => exact resInv_ok (stle_restore (hFail _ _ _ h1))
      | ok s2 => exact resInv_weaken (hOk _ _ _ h1) (hrec _ s2)
      | lrOk q s2 => exact resInv_lrOk q (hLr _ _ _ _ h1)
      | oof => exact resInv_oof
    | loop1 e1 =>
      simp only [runStep]
      cases h1 : rec (Call.exprT e1) s with
      | fail s2 => exact resInv_fail (hFail _ _ _ h1)
      | ok s2 => exact resInv_weaken (hOk _ _ _ h1) (hrec _ s2)
      | lrOk q s2 => exact resInv_lrOk q (hLr _ _ _ _ h1)
      | oof => exact resInv_oof
    | opt e1 =>
      simp only [runStep]
      cases h1 : rec (Call.exprT e1) s with
      | fail s2 => exact resInv_ok (stle_restore (hFail _ _ _ h1))
      | ok s2 => exact resInv_ok (hOk _ _ _ h1)
      | lrOk q s2 => exact resInv_lrOk q (hLr _ _ _ _ h1)
      | oof => exact resInv_oof
    | andE e1 =>
      simp only [runStep]
      cases h1 : rec (Call.exprT e1) s with
      | ok s2 => exact resInv_ok (stle_restore (hOk _ _ _ h1))
      | fail s2 => exact resInv_fail (stle_restore (hFail _ _ _ h1))
      | lrOk q s2 => exact resInv_lrOk q (hLr _ _ _ _ h1)
      | oof => exact resInv_oof
    | notE e1 =>
      simp only [runStep]
      cases h1 : rec (Call.exprT e1) s with
      | ok s2 => exact resInv_fail (stle_restore (hOk _ _ _ h1))
      | fail s2 => exact resInv_ok (stle_restore (hFail _ _ _ h1))
      | lrOk q s2 => exact resInv_lrOk q (hLr _ _ _ _ h1)
      | oof => exact resInv_oof
    | nl e1 =>
      simp only [runStep]
      cases h1 : rec (Call.exprT e1) s with
      | ok s2 => exact resInv_ok ((stLe_trans (hOk _ _ _ h1) (ctxLe_nextLine G s2.ctx)))
      | fail s2 => exact resInv_fail (hFail _ _ _ h1)
      | lrOk q s2 => exact resInv_lrOk q (hLr _ _ _ _ h1)
      | oof => exact resInv_oof
    | seqE l r =>
      simp only [runStep]
      cases h1 : rec (Call.exprT l) s with
      | fail s2 => exact resInv_fail (hFail _ _ _ h1)
      | ok s2 => exact resInv_weaken (hOk _ _ _ h1) (hrec _ s2)
      | lrOk q s2 => exact resInv_lrOk q (hLr _ _ _ _ h1)
      | oof => exact resInv_oof
    | choice l r =>
      simp only [runStep]
      cases h1 : rec (Call.exprT l) s with
      | ok s2 => exact resInv_ok (hOk _ _ _ h1)
      | fail s2 => exact resInv_weaken (stle_restore (hFail _ _ _ h1)) (hrec _ _)
      | lrOk q s2 => exact resInv_lrOk q (hLr _ _ _ _ h1)
      | oof => exact resInv_oof
    | ref i => exact hrec (Call.ruleT i) s
  | starNT e1 =>
    simp only [runStep]
    cases hws : rec Call.wsCall s with
    | ok s1 =>
      simp only [Res.cont]
      cases h1 : rec (Call.exprNT e1) s1 with
      | fail s2 => exact resInv_ok ((stLe_trans (hOk _ _ _ hws) (stle_restore (hFail _ _ _ h1))))
      | ok s2 => exact resInv_weaken ((stLe_trans (hOk _ _ _ hws) (hOk _ _ _ h1))) (hrec _ s2)
      | lrOk q s2 => exact resInv_lrOk q ((stLe_trans (hOk _ _ _ hws) (hLr _ _ _ _ h1)))
      | oof => exact resInv_oof
    | fail s1 =>
      simp only [Res.cont]
      cases h1 : rec (Call.exprNT e1) s1 with
      | fail s2 => exact resInv_ok ((stLe_trans (hFail _ _ _ hws) (stle_restore (hFail _ _ _ h1))))
      | ok s2 => exact resInv_weaken ((stLe_trans (hFail _ _ _ hws) (hOk _ _ _ h1))) (hrec _ s2)
      | lrOk q s2 => exact resInv_lrOk q ((stLe_trans (hFail _ _ _ hws) (hLr _ _ _ _ h1)))
      | oof => exact resInv_oof
    | lrOk q s1 => exact resInv_lrOk q (hLr _ _ _ _ hws)
    | oof => exact resInv_oof
  | starT e1 =>
    simp only [runStep]
    cases h1 : rec (Call.exprT e1) s with
    | fail s2 => exact resInv_ok (stle_restore (hFail _ _ _ h1))
    | ok s2 => exact resInv_weaken (hOk _ _ _ h1) (hrec _ s2)
    | lrOk q s2 => exact resInv_lrOk q (hLr _ _ _ _ h1)
    | oof => exact resInv_oof
  | ruleNT r =>
    simp only [runStep]
    cases hm : (s.rules r).mode with
    | parse =>
      dsimp only
      by_cases hlr : (s.rules r).lastPos = some s.ctx.pos.it
      · rw [if_pos hlr]
        cases h1 : rec (Call.innerNT r) (setRuleMode r Mode.reject (setRulePos r (some s.ctx.pos.it) s)) with
        | ok s3 =>
          dsimp only
          cases h2 : rec (Call.growNT r) (setRuleMode r Mode.accept s3) with
          | ok s5 =>
            have k1 : StLe G (setRuleMode r Mode.reject (setRulePos r (some s.ctx.pos.it) s)) s3 := hOk _ _ _ h1
            have k2 : StLe G (setRuleMode r Mode.accept s3) s5 := hOk _ _ _ h2
            exact resInv_lrOk r (stLe_trans k1 k2)
          | fail s5 =>
            have k1 : StLe G (setRuleMode r Mode.reject (setRulePos r (some s.ctx.pos.it) s)) s3 := hOk _ _ _ h1
            have k2 : StLe G (setRuleMode r Mode.accept s3) s5 := hFail _ _ _ h2
            exact resInv_fail (stLe_trans k1 k2)
          | lrOk q s5 =>
            have k1 : StLe G (setRuleMode r Mode.reject (setRulePos r (some s.ctx.pos.it) s)) s3 := hOk _ _ _ h1
            have k2 : StLe G (setRuleMode r Mode.accept s3) s5 := hLr _ _ _ _ h2
            exact resInv_lrOk q (stLe_trans k1 k2)
          | oof => exact resInv_oof
        | fail s3 =>
          have k1 : StLe G (setRuleMode r Mode.reject (setRulePos r (some s.ctx.pos.it) s)) s3 := hFail _ _ _ h1
          exact resInv_fail k1
        | lrOk q s3 =>
          have k1 : StLe G (setRuleMode r Mode.reject (setRulePos r (some s.ctx.pos.it) s)) s3 := hLr _ _ _ _ h1
          exact resInv_lrOk q k1
        | oof => exact resInv_oof
      · rw [if_neg hlr]
        cases h1 : rec (Call.innerNT r) (setRulePos r (some s.ctx.pos.it) s) with
        | ok s3 =>
          have k1 : StLe G (setRulePos r (some s.ctx.pos.it) s) s3 := hOk _ _ _ h1
          exact resInv_ok k1
        | fail s3 =>
          have k1 : StLe G (setRulePos r (some s.ctx.pos.it) s) s3 := hFail _ _ _ h1
          exact resInv_fail k1
        | lrOk q s3 =>
          dsimp only
          have k1 : StLe G (setRulePos r (some s.ctx.pos.it) s) s3 := hLr _ _ _ _ h1
          by_cases hq : q = r
          · rw [if_pos hq]
            exact resInv_ok k1
          · rw [if_neg hq]
            exact resInv_lrOk q k1
        | oof => exact resInv_oof
    | reject =>
      dsimp only
      by_cases hlr : (s.rules r).lastPos = some s.ctx.pos.it
      · rw [if_pos hlr]
        exact resInv_fail (stLe_refl G s)
      · rw [if_neg hlr]
        cases h1 : rec (Call.innerNT r) (setRuleMode r Mode.parse (setRulePos r (some s.ctx.pos.it) s)) with
        | ok s3 =>
          have k1 : StLe G (setRuleMode r Mode.parse (setRulePos r (some s.ctx.pos.it) s)) s3 := hOk _ _ _ h1
          exact resInv_ok k1
        | fail s3 =>
          have k1 : StLe G (setRuleMode r Mode.parse (setRulePos r (some s.ctx.pos.it) s)) s3 := hFail _ _ _ h1
          exact resInv_fail k1
        | lrOk q s3 =>
          have k1 : StLe G (setRuleMode r Mode.parse (setRulePos r (some s.ctx.pos.it) s)) s3 := hLr _ _ _ _ h1
          exact resInv_lrOk q k1
        | oof => exact resInv_oof
    | accept =>
      dsimp only
      by_cases hlr : (s.rules r).lastPos = some s.ctx.pos.it
      · rw [if_pos hlr]
        exact resInv_ok (stLe_refl G s)
      · rw [if_neg hlr]
        cases h1 : rec (Call.innerNT r) (setRuleMode r Mode.parse (setRulePos r (some s.ctx.pos.it) s)) with
        | ok s3 =>
          have k1 : StLe G (setRuleMode r Mode.parse (setRulePos r (some s.ctx.pos.it) s)) s3 := hOk _ _ _ h1
          exact resInv_ok k1
        | fail s3 =>
          have k1 : StLe G (setRuleMode r Mode.parse (setRulePos r (some s.ctx.pos.it) s)) s3 := hFail _ _ _ h1
          exact resInv_fail k1
        | lrOk q s3 =>
          have k1 : StLe G (setRuleMode r Mode.parse (setRulePos r (some s.ctx.pos.it) s)) s3 := hLr _ _ _ _ h1
          exact resInv_lrOk q k1
        | oof => exact resInv_oof
  | ruleT r =>
    simp only [runStep]
    cases hm : (s.rules r).mode with
    | parse =>
      dsimp only
      by_cases hlr : (s.rules r).lastPos = some s.ctx.pos.it
      · rw [if_pos hlr]
        cases h1 : rec (Call.innerT r) (setRuleMode r Mode.reject (setRulePos r (some s.ctx.pos.it) s)) with
        | ok s3 =>
          dsimp only
          cases h2 : rec (Call.growT r) (setRuleMode r Mode.accept s3) with
          | ok s5 =>
            have k1 : StLe G (setRuleMode r Mode.reject (setRulePos r (some s.ctx.pos.it) s)) s3 := hOk _ _ _ h1
            have k2 : StLe G (setRuleMode r Mode.accept s3) s5 := hOk _ _ _ h2
            exact resInv_lrOk r (stLe_trans k1 k2)
          | fail s5 =>
            have k1 : StLe G (setRuleMode r Mode.reject (setRulePos r (some s.ctx.pos.it) s)) s3 := hOk _ _ _ h1
            have k2 : StLe G (setRuleMode r Mode.accept s3) s5 := hFail _ _ _ h2
            exact resInv_fail (stLe_trans k1 k2)
          | lrOk q s5 =>
            have k1 : StLe G (setRuleMode r Mode.reject (setRulePos r (some s.ctx.pos.it) s)) s3 := hOk _ _ _ h1
            have k2 : StLe G (setRuleMode r Mode.accept s3) s5 := hLr _ _ _ _ h2
            exact resInv_lrOk q (stLe_trans k1 k2)
          | oof => exact resInv_oof
        | fail s3 =>
          have k1 : StLe G (setRuleMode r Mode.reject (setRulePos r (some s.ctx.pos.it) s)) s3 := hFail _ _ _ h1
          exact resInv_fail k1
        | lrOk q s3 =>
          have k1 : StLe G (setRuleMode r Mode.reject (setRulePos r (some s.ctx.pos.it) s)) s3 := hLr _ _ _ _ h1
          exact resInv_lrOk q k1
        | oof => exact resInv_oof
      · rw [if_neg hlr]
        cases h1 : rec (Call.innerT r) (setRulePos r (some s.ctx.pos.it) s) with
        | ok s3 =>
          have k1 : StLe G (setRulePos r (some s.ctx.pos.it) s) s3 := hOk _ _ _ h1
          exact resInv_ok k1
        | fail s3 =>
          have k1 : StLe G (setRulePos r (some s.ctx.pos.it) s) s3 := hFail _ _ _ h1
          exact resInv_fail k1
        | lrOk q s3 =>
          dsimp only
          have k1 : StLe G (setRulePos r (some s.ctx.pos.it) s) s3 := hLr _ _ _ _ h1
          by_cases hq : q = r
          · rw [if_pos hq]
            exact resInv_ok k1
          · rw [if_neg hq]
            exact resInv_lrOk q k1
        | oof => exact resInv_oof
    | reject =>
      dsimp only
      by_cases hlr : (s.rules r).lastPos = some s.ctx.pos.it
      · rw [if_pos hlr]
        exact resInv_fail (stLe_refl G s)
      · rw [if_neg hlr]
        cases h1 : rec (Call.innerT r) (setRuleMode r Mode.parse (setRulePos r (some s.ctx.pos.it) s)) with
        | ok s3 =>
          have k1 : StLe G (setRuleMode r Mode.parse (setRulePos r (some s.ctx.pos.it) s)) s3 := hOk _ _ _ h1
          exact resInv_ok k1
        | fail s3 =>
          have k1 : StLe G (setRuleMode r Mode.parse (setRulePos r (some s.ctx.pos.it) s)) s3 := hFail _ _ _ h1
          exact resInv_fail k1
        | lrOk q s3 =>
          have k1 : StLe G (setRuleMode r Mode.parse (setRulePos r (some s.ctx.pos.it) s)) s3 := hLr _ _ _ _ h1
          exact resInv_lrOk q k1
        | oof => exact resInv_oof
    | accept =>
      dsimp only
      by_cases hlr : (s.rules r).lastPos = some s.ctx.pos.it
      · rw [if_pos hlr]
        exact resInv_ok (stLe_refl G s)
      · rw [if_neg hlr]
        cases h1 : rec (Call.innerT r) (setRuleMode r Mode.parse (setRulePos r (some s.ctx.pos.it) s)) with
        | ok s3 =>
          have k1 : StLe G (setRuleMode r Mode.parse (setRulePos r (some s.ctx.pos.it) s)) s3 := hOk _ _ _ h1
          exact resInv_ok k1
        | fail s3 =>
          have k1 : StLe G (setRuleMode r Mode.parse (setRulePos r (some s.ctx.pos.it) s)) s3 := hFail _ _ _ h1
          exact resInv_fail k1
        | lrOk q s3 =>
          have k1 : StLe G (setRuleMode r Mode.parse (setRulePos r (some s.ctx.pos.it) s)) s3 := hLr _ _ _ _ h1
          exact resInv_lrOk q k1
        | oof => exact resInv_oof
  | innerNT r =>
    simp only [runStep]
    by_cases hp : G.hasProc r = true
    · rw [if_pos hp]
      cases h1 : rec (Call.exprNT (G.body r)) s with
      | ok s2 => exact resInv_ok ((stLe_trans (hOk _ _ _ h1) (stle_push _ hp)))
      | fail s2 => exact resInv_fail (hFail _ _ _ h1)
      | lrOk q s2 => exact resInv_lrOk q (hLr _ _ _ _ h1)
      | oof => exact resInv_oof
    · rw [if_neg hp]
      exact hrec _ s
  | innerT r =>
    simp only [runStep]
    by_cases hp : G.hasProc r = true
    · rw [if_pos hp]
      cases h1 : rec (Call.exprT (G.body r)) s with
      | ok s2 => exact resInv_ok ((stLe_trans (hOk _ _ _ h1) (stle_push _ hp)))
      | fail s2 => exact resInv_fail (hFail _ _ _ h1)
      | lrOk q s2 => exact resInv_lrOk q (hLr _ _ _ _ h1)
      | oof => exact resInv_oof
    · rw [if_neg hp]
      exact hrec _ s
  | growNT r =>
    simp only [runStep]
    cases h1 : rec (Call.innerNT r) (setRulePos r (some s.ctx.pos.it) s) with
    | fail s2 =>
      have k1 : StLe G (setRulePos r (some s.ctx.pos.it) s) s2 := hFail _ _ _ h1
      exact resInv_ok (@stle_restore G (setRulePos r (some s.ctx.pos.it) s) s2 k1)
    | ok s2 =>
      have k1 : StLe G (setRulePos r (some s.ctx.pos.it) s) s2 := hOk _ _ _ h1
      exact resInv_weaken k1 (hrec (Call.growNT r) s2)
    | lrOk q s2 =>
      have k1 : StLe G (setRulePos r (some s.ctx.pos.it) s) s2 := hLr _ _ _ _ h1
      exact resInv_lrOk q k1
    | oof => exact resInv_oof
  | growT r =>
    simp only [runStep]
    cases h1 : rec (Call.innerT r) (setRulePos r (some s.ctx.pos.it) s) with
    | fail s2 =>
      have k1 : StLe G (setRulePos r (some s.ctx.pos.it) s) s2 := hFail _ _ _ h1
      exact resInv_ok (@stle_restore G (setRulePos r (some s.ctx.pos.it) s) s2 k1)
    | ok s2 =>
      have k1 : StLe G (setRulePos r (some s.ctx.pos.it) s) s2 := hOk _ _ _ h1
      exact resInv_weaken k1 (hrec (Call.growT r) s2)
    | lrOk q s2 =>
      have k1 : StLe G (setRulePos r (some s.ctx.pos.it) s) s2 := hLr _ _ _ _ h1
      exact resInv_lrOk q k1
    | oof => exact resInv_oof
  | wsCall =>
    simp only [runStep]
    exact resInv_weaken (stle_wsBump G s) (hrec _ _)

/-- Master invariant: whatever state any interpreter run carries, the
furthest-error position never decreased, the match log never shrank below its
entry length, and the all-procs-registered property was preserved. -/
theorem run_inv (G : Grammar) (inp : List Nat) :
    ∀ (n : Nat) (c : Call) (s : PState), ResInv G s (run G inp n c s) := by
  intro n
  induction n with
  | zero => intro c s; exact resInv_oof
  | succ n ih => exact runStep_inv G inp (run G inp n) ih

/-- Result property: the ghost whitespace-invocation counter is unchanged. -/
def WsRes (s : PState) (r : Res) : Prop :=
  ∀ s2, r.state? = some s2 → s2.ctx.wsCalls = s.ctx.wsCalls

/-- Calls that belong to terminal-mode evaluation: `parse_term` of an
expression, of a rule (engine and inner body), the terminal grow loop and the
terminal rest-loop. -/
def Call.isTermCall : Call → Bool
  | Call.exprT _ => true
  | Call.ruleT _ => true
  | Call.innerT _ => true
  | Call.growT _ => true
  | Call.starT _ => true
  | _ => false

theorem wsCalls_setErrorPos (c : Ctx) : (setErrorPos c).wsCalls = c.wsCalls := by
  unfold setErrorPos
  split <;> rfl

theorem wsCalls_strLoop (inp : List Nat) (cs : List Nat) :
    ∀ c : Ctx, (strLoop inp cs c).2.wsCalls = c.wsCalls := by
  induction cs with
  | nil => intro c; rfl
  | cons ch rest ih =>
    intro c
    unfold strLoop
    split
    · exact ih (nextCol c)
    · rfl

theorem wsCalls_strParse (inp : List Nat) (cs : List Nat) (c : Ctx) :
    (strParse inp cs c).2.wsCalls = c.wsCalls := by
  unfold strParse
  dsimp only
  split
  · exact wsCalls_strLoop inp cs c
  · exact (wsCalls_setErrorPos _).trans (wsCalls_strLoop inp cs c)

theorem wsCalls_charParse (inp : List Nat) (ch : Nat) (c : Ctx) :
    (charParse inp ch c).2.wsCalls = c.wsCalls := by
  unfold charParse
  split
  · rfl
  · exact wsCalls_setErrorPos c

theorem wsCalls_setParse (inp : List Nat) (bits : List Bool) (c : Ctx) :
    (setParse inp bits c).2.wsCalls = c.wsCalls := by
  unfold setParse
  split
  · rfl
  · exact wsCalls_setErrorPos c

theorem wsCalls_anyParse (inp : List Nat) (c : Ctx) :
    (anyParse inp c).2.wsCalls = c.wsCalls := by
  unfold anyParse
  split
  · rfl
  · exact wsCalls_setErrorPos c

theorem wsRes_ok {s s2 : PState} (h : s2.ctx.wsCalls = s.ctx.wsCalls) : WsRes s (Res.ok s2) := by
  intro s3 h3
  cases Option.some.inj h3
  exact h

theorem wsRes_fail {s s2 : PState} (h : s2.ctx.wsCalls = s.ctx.wsCalls) : WsRes s (Res.fail s2) := by
  intro s3 h3
  cases Option.some.inj h3
  exact h

theorem wsRes_lrOk {s s2 : PState} (q : Nat) (h : s2.ctx.wsCalls = s.ctx.wsCalls) :
    WsRes s (Res.lrOk q s2) := by
  intro s3 h3
  cases Option.some.inj h3
  exact h

theorem wsRes_oof {s : PState} : WsRes s Res.oof := by
  intro s2 h2
  cases h2

theorem wsRes_weaken {s sx : PState} {r : Res} (h : sx.ctx.wsCalls = s.ctx.wsCalls)
    (hr : WsRes sx r) : WsRes s r :=
  fun s2 h2 => (hr s2 h2).trans h

theorem wsRes_prim2res {s : PState} {p : Bool × Ctx} (h : p.2.wsCalls = s.ctx.wsCalls) :
    WsRes s (prim2res p s) := by
  unfold prim2res
  split
  · exact wsRes_ok h
  · exact wsRes_fail h

/-- One interpreter step of a terminal-mode call leaves the whitespace
counter unchanged, assuming recursive terminal-mode calls do. -/
theorem runStep_ws (G : Grammar) (inp : List Nat) (rec : Call → PState → Res)
    (hrec : ∀ c s, Call.isTermCall c = true → WsRes s (rec c s)) :
    ∀ c s, Call.isTermCall c = true → WsRes s (runStep G inp rec c s) := by
  have hOk : ∀ c1 s1 s2, rec c1 s1 = Res.ok s2 → Call.isTermCall c1 = true →
      s2.ctx.wsCalls = s1.ctx.wsCalls := by
    intro c1 s1 s2 h ht
    exact hrec c1 s1 ht s2 (by rw [h]; rfl)
  have hFail : ∀ c1 s1 s2, rec c1 s1 = Res.fail s2 → Call.isTermCall c1 = true →
      s2.ctx.wsCalls = s1.ctx.wsCalls := by
    intro c1 s1 s2 h ht
    exact hrec c1 s1 ht s2 (by rw [h]; rfl)
  have hLr : ∀ c1 s1 q s2, rec c1 s1 = Res.lrOk q s2 → Call.isTermCall c1 = true →
      s2.ctx.wsCalls = s1.ctx.wsCalls := by
    intro c1 s1 q s2 h ht
    exact hrec c1 s1 ht s2 (by rw [h]; rfl)
  intro c s hc
  cases c with
  | exprNT e => cases hc
  | ruleNT r => cases hc
  | innerNT r => cases hc
  | growNT r => cases hc
  | starNT e => cases hc
  | wsCall => cases hc
  | exprT e =>
    cases e with
    | chr ch => exact wsRes_prim2res (wsCalls_charParse inp ch s.ctx)
    | strE cs => exact wsRes_prim2res (wsCalls_strParse inp cs s.ctx)
    | setE bits => exact wsRes_prim2res (wsCalls_setParse inp bits s.ctx)
    | anyE => exact wsRes_prim2res (wsCalls_anyParse inp s.ctx)
    | eofE => exact wsRes_prim2res rfl
    | termE e1 => exact hrec (Call.exprT e1) s rfl
    | loop0 e1 =>
      simp only [runStep]
      cases h1 : rec (Call.exprT e1) s with
      | fail s2 =>
        have k9 := hFail _ _ _ h1 rfl
        exact wsRes_ok k9
      | ok s2 => exact wsRes_weaken (hOk _ _ _ h1 rfl) (hrec (Call.starT e1) s2 rfl)
      | lrOk q s2 =>
        have k8 := hLr _ _ _ _ h1 rfl
        exact wsRes_lrOk q k8
      | oof => exact wsRes_oof
    | loop1 e1 =>
      simp only [runStep]
      cases h1 : rec (Call.exprT e1) s with
      | fail s2 =>
        have k9 := hFail _ _ _ h1 rfl
        exact wsRes_fail k9
      | ok s2 => exact wsRes_weaken (hOk _ _ _ h1 rfl) (hrec (Call.starT e1) s2 rfl)
      | lrOk q s2 =>
        have k8 := hLr _ _ _ _ h1 rfl
        exact wsRes_lrOk q k8
      | oof => exact wsRes_oof
    | opt e1 =>
      simp only [runStep]
      cases h1 : rec (Call.exprT e1) s with
      | fail s2 =>
        have k9 := hFail _ _ _ h1 rfl
        exact wsRes_ok k9
      | ok s2 =>
        have k9 := hOk _ _ _ h1 rfl
        exact wsRes_ok k9
      | lrOk q s2 =>
        have k8 := hLr _ _ _ _ h1 rfl
        exact wsRes_lrOk q k8
      | oof => exact wsRes_oof
    | andE e1 =>
      simp only [runStep]
      cases h1 : rec (Call.exprT e1) s with
      | ok s2 =>
        have k9 := hOk _ _ _ h1 rfl
        exact wsRes_ok k9
      | fail s2 =>
        have k9 := hFail _ _ _ h1 rfl
        exact wsRes_fail k9
      | lrOk q s2 =>
        have k8 := hLr _ _ _ _ h1 rfl
        exact wsRes_lrOk q k8
      | oof => exact wsRes_oof
    | notE e1 =>
      simp only [runStep]
      cases h1 : rec (Call.exprT e1) s with
      | ok s2 =>
        have k9 := hOk _ _ _ h1 rfl
        exact wsRes_fail k9
      | fail s2 =>
        have k9 := hFail _ _ _ h1 rfl
        exact wsRes_ok k9
      | lrOk q s2 =>
        have k8 := hLr _ _ _ _ h1 rfl
        exact wsRes_lrOk q k8
      | oof => exact wsRes_oof
    | nl e1 =>
      simp only [runStep]
      cases h1 : rec (Call.exprT e1) s with
      | ok s2 =>
        have k9 := hOk _ _ _ h1 rfl
        exact wsRes_ok k9
      | fail s2 =>
        have k9 := hFail _ _ _ h1 rfl
        exact wsRes_fail k9
      | lrOk q s2 =>
        have k8 := hLr _ _ _ _ h1 rfl
        exact wsRes_lrOk q k8
      | oof => exact wsRes_oof
    | seqE l r =>
      simp only [runStep]
      cases h1 : rec (Call.exprT l) s with
      | fail s2 =>
        have k9 := hFail _ _ _ h1 rfl
        exact wsRes_fail k9
      | ok s2 => exact wsRes_weaken (hOk _ _ _ h1 rfl) (hrec (Call.exprT r) s2 rfl)
      | lrOk q s2 =>
        have k8 := hLr _ _ _ _ h1 rfl
        exact wsRes_lrOk q k8
      | oof => exact wsRes_oof
    | choice l r =>
      simp only [runStep]
      cases h1 : rec (Call.exprT l) s with
      | ok s2 =>
        have k9 := hOk _ _ _ h1 rfl
        exact wsRes_ok k9
      | fail s2 =>
        exact wsRes_weaken (hFail _ _ _ h1 rfl)
          (hrec (Call.exprT r) (withCtx (restoreC (snap s.ctx)) s2) rfl)
      | lrOk q s2 =>
        have k8 := hLr _ _ _ _ h1 rfl
        exact wsRes_lrOk q k8
      | oof => exact wsRes_oof
    | ref i => exact hrec (Call.ruleT i) s rfl
  | starT e1 =>
    simp only [runStep]
    cases h1 : rec (Call.exprT e1) s with
    | fail s2 =>
      have k9 := hFail _ _ _ h1 rfl
      exact wsRes_ok k9
    | ok s2 => exact wsRes_weaken (hOk _ _ _ h1 rfl) (hrec (Call.starT e1) s2 rfl)
    | lrOk q s2 =>
      have k8 := hLr _ _ _ _ h1 rfl
      exact wsRes_lrOk q k8
    | oof => exact wsRes_oof
  | ruleT r =>
    simp only [runStep]
    cases hm : (s.rules r).mode with
    | parse =>
      dsimp only
      by_cases hlr : (s.rules r).lastPos = some s.ctx.pos.it
      · rw [if_pos hlr]
        cases h1 : rec (Call.innerT r) (setRuleMode r Mode.reject (setRulePos r (some s.ctx.pos.it) s)) with
        | ok s3 =>
          dsimp only
          have k1 := hOk _ _ _ h1 rfl
          cases h2 : rec (Call.growT r) (setRuleMode r Mode.accept s3) with
          | ok s5 =>
            have k2 := hOk _ _ _ h2 rfl
            exact wsRes_lrOk r (k2.trans k1)
          | fail s5 =>
            have k2 := hFail _ _ _ h2 rfl
            exact wsRes_fail (k2.trans k1)
          | lrOk q s5 =>
            have k2 := hLr _ _ _ _ h2 rfl
            exact wsRes_lrOk q (k2.trans k1)
          | oof => exact wsRes_oof
        | fail s3 =>
          have k9 := hFail _ _ _ h1 rfl
          exact wsRes_fail k9
        | lrOk q s3 =>
          have k8 := hLr _ _ _ _ h1 rfl
          exact wsRes_lrOk q k8
        | oof => exact wsRes_oof
      · rw [if_neg hlr]
        cases h1 : rec (Call.innerT r) (setRulePos r (some s.ctx.pos.it) s) with
        | ok s3 =>
          have k9 := hOk _ _ _ h1 rfl
          exact wsRes_ok k9
        | fail s3 =>
          have k9 := hFail _ _ _ h1 rfl
          exact wsRes_fail k9
        | lrOk q s3 =>
          dsimp only
          have k1 := hLr _ _ _ _ h1 rfl
          by_cases hq : q = r
          · rw [if_pos hq]
            exact wsRes_ok k1
          · rw [if_neg hq]
            exact wsRes_lrOk q k1
        | oof => exact wsRes_oof
    | reject =>
      dsimp only
      by_cases hlr : (s.rules r).lastPos = some s.ctx.pos.it
      · rw [if_pos hlr]
        exact wsRes_fail rfl
      · rw [if_neg hlr]
        cases h1 : rec (Call.innerT r) (setRuleMode r Mode.parse (setRulePos r (some s.ctx.pos.it) s)) with
        | ok s3 =>
          have k9 := hOk _ _ _ h1 rfl
          exact wsRes_ok k9
        | fail s3 =>
          have k9 := hFail _ _ _ h1 rfl
          exact wsRes_fail k9
        | lrOk q s3 =>
          have k8 := hLr _ _ _ _ h1 rfl
          exact wsRes_lrOk q k8
        | oof => exact wsRes_oof
    | accept =>
      dsimp only
      by_cases hlr : (s.rules r).lastPos = some s.ctx.pos.it
      · rw [if_pos hlr]
        exact wsRes_ok rfl
      · rw [if_neg hlr]
        cases h1 : rec (Call.innerT r) (setRuleMode r Mode.parse (setRulePos r (some s.ctx.pos.it) s)) with
        | ok s3 =>
          have k9 := hOk _ _ _ h1 rfl
          exact wsRes_ok k9
        | fail s3 =>
          have k9 := hFail _ _ _ h1 rfl
          exact wsRes_fail k9
        | lrOk q s3 =>
          have k8 := hLr _ _ _ _ h1 rfl
          exact wsRes_lrOk q k8
        | oof => exact wsRes_oof
  | innerT r =>
    simp only [runStep]
    by_cases hp : G.hasProc r = true
    · rw [if_pos hp]
      cases h1 : rec (Call.exprT (G.body r)) s with
      | ok s2 =>
        have k9 := hOk _ _ _ h1 rfl
        exact wsRes_ok k9
      | fail s2 =>
        have k9 := hFail _ _ _ h1 rfl
        exact wsRes_fail k9
      | lrOk q s2 =>
        have k8 := hLr _ _ _ _ h1 rfl
        exact wsRes_lrOk q k8
      | oof => exact wsRes_oof
    · rw [if_neg hp]
      exact hrec (Call.exprT (G.body r)) s rfl
  | growT r =>
    simp only [runStep]
    cases h1 : rec (Call.innerT r) (setRulePos r (some s.ctx.pos.it) s) with
    | fail s2 =>
      have k1 := hFail _ _ _ h1 rfl
      exact wsRes_ok k1
    | ok s2 =>
      have k1 := hOk _ _ _ h1 rfl
      exact wsRes_weaken k1 (hrec (Call.growT r) s2 rfl)
    | lrOk q s2 =>
      have k1 := hLr _ _ _ _ h1 rfl
      exact wsRes_lrOk q k1
    | oof => exact wsRes_oof

/-- Master whitespace-scoping invariant: no terminal-mode evaluation changes
the whitespace-invocation counter, i.e. `parse_ws` is never reached from
terminal mode. -/
theorem run_ws (G : Grammar) (inp : List Nat) :
    ∀ (n : Nat) (c : Call) (s : PState), Call.isTermCall c = true →
      WsRes s (run G inp n c s) := by
  intro n
  induction n with
  | zero => intro c s _; exact wsRes_oof
  | succ n ih => exact runStep_ws G inp (run G inp n) ih

/-- The grow loop never returns plain failure: it exits by restoring and
succeeding, by propagating an exception, or by running out of fuel. -/
theorem grow_no_fail (G : Grammar) (inp : List Nat) :
    ∀ (n : Nat) (r : Nat) (s s2 : PState),
      run G inp n (Call.growNT r) s ≠ Res.fail s2 ∧
      run G inp n (Call.growT r) s ≠ Res.fail s2 := by
  intro n
  induction n with
  | zero =>
    intro r s s2
    exact ⟨fun h => Res.noConfusion h, fun h => Res.noConfusion h⟩
  | succ n ih =>
    intro r s s2
    constructor
    · show runStep G inp (run G inp n) (Call.growNT r) s ≠ Res.fail s2
      simp only [runStep]
      cases h1 : run G inp n (Call.innerNT r) (setRulePos r (some s.ctx.pos.it) s) with
      | fail s3 => exact fun h => Res.noConfusion h
      | ok s3 => exact (ih r s3 s2).1
      | lrOk q s3 => exact fun h => Res.noConfusion h
      | oof => exact fun h => Res.noConfusion h
    · show runStep G inp (run G inp n) (Call.growT r) s ≠ Res.fail s2
      simp only [runStep]
      cases h1 : run G inp n (Call.innerT r) (setRulePos r (some s.ctx.pos.it) s) with
      | fail s3 => exact fun h => Res.noConfusion h
      | ok s3 => exact (ih r s3 s2).2
      | lrOk q s3 => exact fun h => Res.noConfusion h
      | oof => exact fun h => Res.noConfusion h

theorem setRule_rules_self (i : Nat) (st : RuleState) (s : PState) :
    (setRule i st s).rules i = st := by
  simp [setRule]

/-- C5 (amended): rule-state restoration holds on the ordinary exits of the
engine entry points: whenever `parse_non_term` or `parse_term` returns
success or failure, the invoked rule's per-parse state (mode and last-attempt
position) equals its value on entry. It does not hold on every exit that
propagates the out-of-band left-recursion completion signal: the signal can
unwind through a REJECT- or ACCEPT-mode invocation (or through the seed and
grow calls of a PARSE-mode left-recursive frame), which install no handler
and therefore never restore the saved state — see the counterexample. -/
theorem ruleState_restored_core (G : Grammar) (inp : List Nat) (n : Nat) (r : Nat)
    (s s2 : PState) :
    (run G inp n (Call.ruleNT r) s = Res.ok s2 → s2.rules r = s.rules r) ∧
    (run G inp n (Call.ruleNT r) s = Res.fail s2 → s2.rules r = s.rules r) ∧
    (run G inp n (Call.ruleT r) s = Res.ok s2 → s2.rules r = s.rules r) ∧
    (run G inp n (Call.ruleT r) s = Res.fail s2 → s2.rules r = s.rules r) := by
  cases n with
  | zero =>
    exact ⟨fun h => Res.noConfusion h, fun h => Res.noConfusion h,
      fun h => Res.noConfusion h, fun h => Res.noConfusion h⟩
  | succ n =>
    refine ⟨?_, ?_, ?_, ?_⟩
    · show runStep G inp (run G inp n) (Call.ruleNT r) s = Res.ok s2 → s2.rules r = s.rules r
      simp only [runStep]
      cases hm : (s.rules r).mode with
      | parse =>
        dsimp only
        by_cases hlr : (s.rules r).lastPos = some s.ctx.pos.it
        · rw [if_pos hlr]
          cases h1 : run G inp n (Call.innerNT r) (setRuleMode r Mode.reject (setRulePos r (some s.ctx.pos.it) s)) with
          | ok s3 =>
            dsimp only
            cases h2 : run G inp n (Call.growNT r) (setRuleMode r Mode.accept s3) with
            | ok s5 => exact fun h => Res.noConfusion h
            | fail s5 => exact fun h => Res.noConfusion h
            | lrOk q s5 => exact fun h => Res.noConfusion h
            | oof => exact fun h => Res.noConfusion h
          | fail s3 =>
            exact fun h => Res.noConfusion h
          | lrOk q s3 => exact fun h => Res.noConfusion h
          | oof => exact fun h => Res.noConfusion h
        · rw [if_neg hlr]
          cases h1 : run G inp n (Call.innerNT r) (setRulePos r (some s.ctx.pos.it) s) with
          | ok s3 =>
            intro h
            injection h with h3
            rw [← h3]
            exact setRule_rules_self r _ _
          | fail s3 =>
            exact fun h => Res.noConfusion h
          | lrOk q s3 =>
            dsimp only
            by_cases hq : q = r
            · rw [if_pos hq]
              intro h
              injection h with h3
              rw [← h3]
              exact setRule_rules_self r _ _
            · rw [if_neg hq]
              exact fun h => Res.noConfusion h
          | oof => exact fun h => Res.noConfusion h
      | reject =>
        dsimp only
        by_cases hlr : (s.rules r).lastPos = some s.ctx.pos.it
        · rw [if_pos hlr]
          exact fun h => Res.noConfusion h
        · rw [if_neg hlr]
          cases h1 : run G inp n (Call.innerNT r) (setRuleMode r Mode.parse (setRulePos r (some s.ctx.pos.it) s)) with
          | ok s3 =>
            intro h
            injection h with h3
            rw [← h3]
            exact setRule_rules_self r _ _
          | fail s3 =>
            exact fun h => Res.noConfusion h
          | lrOk q s3 => exact fun h => Res.noConfusion h
          | oof => exact fun h => Res.noConfusion h
      | accept =>
        dsimp only
        by_cases hlr : (s.rules r).lastPos = some s.ctx.pos.it
        · rw [if_pos hlr]
          intro h
          injection h with h3
          rw [← h3]
          exact setRule_rules_self r _ _
        · rw [if_neg hlr]
          cases h1 : run G inp n (Call.innerNT r) (setRuleMode r Mode.parse (setRulePos r (some s.ctx.pos.it) s)) with
          | ok s3 =>
            intro h
            injection h with h3
            rw [← h3]
            exact setRule_rules_self r _ _
          | fail s3 =>
            exact fun h => Res.noConfusion h
          | lrOk q s3 => exact fun h => Res.noConfusion h
          | oof => exact fun h => Res.noConfusion h
    · show runStep G inp (run G inp n) (Call.ruleNT r) s = Res.fail s2 → s2.rules r = s.rules r
      simp only [runStep]
      cases hm : (s.rules r).mode with
      | parse =>
        dsimp only
        by_cases hlr : (s.rules r).lastPos = some s.ctx.pos.it
        · rw [if_pos hlr]
          cases h1 : run G inp n (Call.innerNT r) (setRuleMode r Mode.reject (setRulePos r (some s.ctx.pos.it) s)) with
          | ok s3 =>
            dsimp only
            cases h2 : run G inp n (Call.growNT r) (setRuleMode r Mode.accept s3) with
            | ok s5 => exact fun h => Res.noConfusion h
            | fail s5 => exact fun h => absurd h2 (grow_no_fail G inp n r (setRuleMode r Mode.accept s3) s5).1
            | lrOk q s5 => exact fun h => Res.noConfusion h
            | oof => exact fun h => Res.noConfusion h
          | fail s3 =>
            intro h
            injection h with h3
            rw [← h3]
            exact setRule_rules_self r _ _
          | lrOk q s3 => exact fun h => Res.noConfusion h
          | oof => exact fun h => Res.noConfusion h
        · rw [if_neg hlr]
          cases h1 : run G inp n (Call.innerNT r) (setRulePos r (some s.ctx.pos.it) s) with
          | ok s3 =>
            exact fun h => Res.noConfusion h
          | fail s3 =>
            intro h
            injection h with h3
            rw [← h3]
            exact setRule_rules_self r _ _
          | lrOk q s3 =>
            dsimp only
            by_cases hq : q = r
            · rw [if_pos hq]
              exact fun h => Res.noConfusion h
            · rw [if_neg hq]
              exact fun h => Res.noConfusion h
          | oof => exact fun h => Res.noConfusion h
      | reject =>
        dsimp only
        by_cases hlr : (s.rules r).lastPos = some s.ctx.pos.it
        · rw [if_pos hlr]
          intro h
          injection h with h3
          rw [← h3]
          exact setRule_rules_self r _ _
        · rw [if_neg hlr]
          cases h1 : run G inp n (Call.innerNT r) (setRuleMode r Mode.parse (setRulePos r (some s.ctx.pos.it) s)) with
          | ok s3 =>
            exact fun h => Res.noConfusion h
          | fail s3 =>
            intro h
            injection h with h3
            rw [← h3]
            exact setRule_rules_self r _ _
          | lrOk q s3 => exact fun h => Res.noConfusion h
          | oof => exact fun h => Res.noConfusion h
      | accept =>
        dsimp only
        by_cases hlr : (s.rules r).lastPos = some s.ctx.pos.it
        · rw [if_pos hlr]
          exact fun h => Res.noConfusion h
        · rw [if_neg hlr]
          cases h1 : run G inp n (Call.innerNT r) (setRuleMode r Mode.parse (setRulePos r (some s.ctx.pos.it) s)) with
          | ok s3 =>
            exact fun h => Res.noConfusion h
          | fail s3 =>
            intro h
            injection h with h3
            rw [← h3]
            exact setRule_rules_self r _ _
          | lrOk q s3 => exact fun h => Res.noConfusion h
          | oof => exact fun h => Res.noConfusion h
    · show runStep G inp (run G inp n) (Call.ruleT r) s = Res.ok s2 → s2.rules r = s.rules r
      simp only [runStep]
      cases hm : (s.rules r).mode with
      | parse =>
        dsimp only
        by_cases hlr : (s.rules r).lastPos = some s.ctx.pos.it
        · rw [if_pos hlr]
          cases h1 : run G inp n (Call.innerT r) (setRuleMode r Mode.reject (setRulePos r (some s.ctx.pos.it) s)) with
          | ok s3 =>
            dsimp only
            cases h2 : run G inp n (Call.growT r) (setRuleMode r Mode.accept s3) with
            | ok s5 => exact fun h => Res.noConfusion h
            | fail s5 => exact fun h => Res.noConfusion h
            | lrOk q s5 => exact fun h => Res.noConfusion h
            | oof => exact fun h => Res.noConfusion h
          | fail s3 =>
            exact fun h => Res.noConfusion h
          | lrOk q s3 => exact fun h => Res.noConfusion h
          | oof => exact fun h => Res.noConfusion h
        · rw [if_neg hlr]
          cases h1 : run G inp n (Call.innerT r) (setRulePos r (some s.ctx.pos.it) s) with
          | ok s3 =>
            intro h
            injection h with h3
            rw [← h3]
            exact setRule_rules_self r _ _
          | fail s3 =>
            exact fun h => Res.noConfusion h
          | lrOk q s3 =>
            dsimp only
            by_cases hq : q = r
            · rw [if_pos hq]
              intro h
              injection h with h3
              rw [← h3]
              exact setRule_rules_self r _ _
            · rw [if_neg hq]
              exact fun h => Res.noConfusion h
          | oof => exact fun h => Res.noConfusion h
      | reject =>
        dsimp only
        by_cases hlr : (s.rules r).lastPos = some s.ctx.pos.it
        · rw [if_pos hlr]
          exact fun h => Res.noConfusion h
        · rw [if_neg hlr]
          cases h1 : run G inp n (Call.innerT r) (setRuleMode r Mode.parse (setRulePos r (some s.ctx.pos.it) s)) with
          | ok s3 =>
            intro h
            injection h with h3
            rw [← h3]
            exact setRule_rules_self r _ _
          | fail s3 =>
            exact fun h => Res.noConfusion h
          | lrOk q s3 => exact fun h => Res.noConfusion h
          | oof => exact fun h => Res.noConfusion h
      | accept =>
        dsimp only
        by_cases hlr : (s.rules r).lastPos = some s.ctx.pos.it
        · rw [if_pos hlr]
          intro h
          injection h with h3
          rw [← h3]
          exact setRule_rules_self r _ _
        · rw [if_neg hlr]
          cases h1 : run G inp n (Call.innerT r) (setRuleMode r Mode.parse (setRulePos r (some s.ctx.pos.it) s)) with
          | ok s3 =>
            intro h
            injection h with h3
            rw [← h3]
            exact setRule_rules_self r _ _
          | fail s3 =>
            exact fun h => Res.noConfusion h
          | lrOk q s3 => exact fun h => Res.noConfusion h
          | oof => exact fun h => Res.noConfusion h
    · show runStep G inp (run G inp n) (Call.ruleT r) s = Res.fail s2 → s2.rules r = s.rules r
      simp only [runStep]
      cases hm : (s.rules r).mode with
      | parse =>
        dsimp only
        by_cases hlr : (s.rules r).lastPos = some s.ctx.pos.it
        · rw [if_pos hlr]
          cases h1 : run G inp n (Call.innerT r) (setRuleMode r Mode.reject (setRulePos r (some s.ctx.pos.it) s)) with
          | ok s3 =>
            dsimp only
            cases h2 : run G inp n (Call.growT r) (setRuleMode r Mode.accept s3) with
            | ok s5 => exact fun h => Res.noConfusion h
            | fail s5 => exact fun h => absurd h2 (grow_no_fail G inp n r (setRuleMode r Mode.accept s3) s5).2
            | lrOk q s5 => exact fun h => Res.noConfusion h
            | oof => exact fun h => Res.noConfusion h
          | fail s3 =>
            intro h
            injection h with h3
            rw [← h3]
            exact setRule_rules_self r _ _
          | lrOk q s3 => exact fun h => Res.noConfusion h
          | oof => exact fun h => Res.noConfusion h
        · rw [if_neg hlr]
          cases h1 : run G inp n (Call.innerT r) (setRulePos r (some s.ctx.pos.it) s) with
          | ok s3 =>
            exact fun h => Res.noConfusion h
          | fail s3 =>
            intro h
            injection h with h3
            rw [← h3]
            exact setRule_rules_self r _ _
          | lrOk q s3 =>
            dsimp only
            by_cases hq : q = r
            · rw [if_pos hq]
              exact fun h => Res.noConfusion h
            · rw [if_neg hq]
              exact fun h => Res.noConfusion h
          | oof => exact fun h => Res.noConfusion h
      | reject =>
        dsimp only
        by_cases hlr : (s.rules r).lastPos = some s.ctx.pos.it
        · rw [if_pos hlr]
          intro h
          injection h with h3
          rw [← h3]
          exact setRule_rules_self r _ _
        · rw [if_neg hlr]
          cases h1 : run G inp n (Call.innerT r) (setRuleMode r Mode.parse (setRulePos r (some s.ctx.pos.it) s)) with
          | ok s3 =>
            exact fun h => Res.noConfusion h
          | fail s3 =>
            intro h
            injection h with h3
            rw [← h3]
            exact setRule_rules_self r _ _
          | lrOk q s3 => exact fun h => Res.noConfusion h
          | oof => exact fun h => Res.noConfusion h
      | accept =>
        dsimp only
        by_cases hlr : (s.rules r).lastPos = some s.ctx.pos.it
        · rw [if_pos hlr]
          exact fun h => Res.noConfusion h
        · rw [if_neg hlr]
          cases h1 : run G inp n (Call.innerT r) (setRuleMode r Mode.parse (setRulePos r (some s.ctx.pos.it) s)) with
          | ok s3 =>
            exact fun h => Res.noConfusion h
          | fail s3 =>
            intro h
            injection h with h3
            rw [← h3]
            exact setRule_rules_self r _ _
          | lrOk q s3 => exact fun h => Res.noConfusion h
          | oof => exact fun h => Res.noConfusion h

theorem setErrorPos_pos (c : Ctx) : (setErrorPos c).pos = c.pos := by
  unfold setErrorPos
  split <;> rfl

theorem setErrorPos_mlog (c : Ctx) : (setErrorPos c).mlog = c.mlog := by
  unfold setErrorPos
  split <;> rfl

/-- Length of the longest prefix of `cs` that `_string::_parse` matches
starting at context `c` (mirrors the stopping condition of `strLoop`). -/
def matchedLen (inp : List Nat) : List Nat → Ctx → Nat
  | [], _ => 0
  | ch :: rest, c =>
    if !(atEnd inp c) && (symbol inp c == ch) then matchedLen inp rest (nextCol c) + 1
    else 0

theorem matchedLen_le (inp : List Nat) (cs : List Nat) :
    ∀ c : Ctx, matchedLen inp cs c ≤ cs.length := by
  induction cs with
  | nil => intro c; exact Nat.le_refl 0
  | cons ch rest ih =>
    intro c
    unfold matchedLen
    split
    · exact Nat.succ_le_succ (ih (nextCol c))
    · exact Nat.zero_le _

theorem strLoop_spec (inp : List Nat) (cs : List Nat) :
    ∀ c : Ctx,
      (strLoop inp cs c).2.pos.it = c.pos.it + matchedLen inp cs c ∧
      ((strLoop inp cs c).1 = true ↔ matchedLen inp cs c = cs.length) ∧
      (strLoop inp cs c).2.mlog = c.mlog := by
  induction cs with
  | nil =>
    intro c
    exact ⟨(Nat.add_zero c.pos.it).symm, by simp [strLoop, matchedLen], rfl⟩
  | cons ch rest ih =>
    intro c
    unfold strLoop matchedLen
    split
    · obtain ⟨hpos, hiff, hmlog⟩ := ih (nextCol c)
      refine ⟨?_, ?_, hmlog⟩
      · rw [hpos]
        show c.pos.it + 1 + matchedLen inp rest (nextCol c) =
          c.pos.it + (matchedLen inp rest (nextCol c) + 1)
        omega
      · rw [hiff]
        show matchedLen inp rest (nextCol c) = rest.length ↔
          matchedLen inp rest (nextCol c) + 1 = rest.length + 1
        omega
    · refine ⟨(Nat.add_zero c.pos.it).symm, ?_, rfl⟩
      simp only [List.length_cons]
      constructor
      · intro h
        cases h
      · intro h
        omega

theorem charParse_fail_frame (inp : List Nat) (ch : Nat) (c : Ctx) :
    (charParse inp ch c).1 = false →
      (charParse inp ch c).2.pos = c.pos ∧ (charParse inp ch c).2.mlog = c.mlog := by
  unfold charParse
  split
  · intro h; cases h
  · intro _; exact ⟨setErrorPos_pos c, setErrorPos_mlog c⟩

theorem setParse_fail_frame (inp : List Nat) (bits : List Bool) (c : Ctx) :
    (setParse inp bits c).1 = false →
      (setParse inp bits c).2.pos = c.pos ∧ (setParse inp bits c).2.mlog = c.mlog := by
  unfold setParse
  split
  · intro h; cases h
  · intro _; exact ⟨setErrorPos_pos c, setErrorPos_mlog c⟩

theorem anyParse_fail_frame (inp : List Nat) (c : Ctx) :
    (anyParse inp c).1 = false →
      (anyParse inp c).2.pos = c.pos ∧ (anyParse inp c).2.mlog = c.mlog := by
  unfold anyParse
  split
  · intro h; cases h
  · intro _; exact ⟨setErrorPos_pos c, setErrorPos_mlog c⟩

theorem eofParse_fail_frame (inp : List Nat) (c : Ctx) :
    (eofParse inp c).1 = false →
      (eofParse inp c).2.pos = c.pos ∧ (eofParse inp c).2.mlog = c.mlog :=
  fun _ => ⟨rfl, rfl⟩

theorem prim2res_fail {p : Bool × Ctx} {s s2 : PState} (h : prim2res p s = Res.fail s2) :
    p.1 = false ∧ s2.ctx = p.2 := by
  unfold prim2res at h
  split at h
  · exact Res.noConfusion h
  · refine ⟨by simpa using (by assumption : ¬p.1 = true), ?_⟩
    injection h with h3
    rw [← h3]

/-- Restoring the snapshot of `s` after evaluation that reached `s3` brings
the position back and the match-log length back (the log cannot have shrunk
below the snapshot). -/
theorem restore_frame (G : Grammar) {s s3 : PState} (hinv : StLe G s s3) :
    (withCtx (restoreC (snap s.ctx)) s3).ctx.pos = s.ctx.pos ∧
    (withCtx (restoreC (snap s.ctx)) s3).ctx.mlog.length = s.ctx.mlog.length := by
  constructor
  · rfl
  · show (s3.ctx.mlog.take s.ctx.mlog.length).length = s.ctx.mlog.length
    rw [List.length_take]
    exact Nat.min_eq_left hinv.2.1

theorem doParseProcs_all (G : Grammar) : ∀ ms : List MatchRec,
    (∀ m ∈ ms, G.hasProc m.rule = true) → doParseProcs G ms = some ms := by
  intro ms
  induction ms with
  | nil => intro _; rfl
  | cons m rest ih =>
    intro h
    unfold doParseProcs
    rw [if_pos (h m (List.mem_cons_self m rest))]
    rw [ih (fun x hx => h x (List.mem_cons_of_mem m hx))]
    rfl

/-- Grammar with the single left-recursive rule 0: `a ::= a / "x"`. Rule 1,
a single blank character, is the whitespace rule. -/
def lrChoiceG : Grammar :=
  ⟨fun i => if i = 0 then Expr.choice (Expr.ref 0) (Expr.strE [120]) else Expr.chr 32,
   fun _ => false, 1⟩

/-- Mid-grow state for `lrChoiceG` on input "x": the seed parse has consumed
the whole input (position 1) and rule 0 is in ACCEPT mode. -/
def lrChoiceGrowState : PState :=
  ⟨⟨posAt 1, posAt 0, [], 0⟩,
   fun i => if i = 0 then ⟨Mode.accept, some 0⟩ else initRuleState⟩

/-- One growing iteration of `lrChoiceG` from any state at position 1 with
rule 0 in ACCEPT mode and recorded position 1 either runs out of fuel or
succeeds, consuming nothing and leaving rule 0 in the same state: the
left-recursive alternative `ref 0` is accepted zero-width by the ACCEPT-mode
re-entry. -/
theorem lrChoice_iteration_no_progress :
    ∀ (m : Nat) (s1 : PState), s1.ctx.pos.it = 1 → s1.rules 0 = ⟨Mode.accept, some 1⟩ →
      run lrChoiceG [120] m (Call.innerNT 0) s1 = Res.oof ∨
      ∃ s2, run lrChoiceG [120] m (Call.innerNT 0) s1 = Res.ok s2 ∧
        s2.ctx = s1.ctx ∧ s2.rules 0 = ⟨Mode.accept, some 1⟩ := by
  intro m s1 hpos hrules
  match m with
  | 0 => exact Or.inl rfl
  | 1 => exact Or.inl rfl
  | 2 => exact Or.inl rfl
  | 3 => exact Or.inl rfl
  | (j + 4) =>
    right
    refine ⟨setRule 0 ⟨Mode.accept, some 1⟩ (setRulePos 0 (some 1) s1), ?_, rfl,
      setRule_rules_self 0 _ _⟩
    show runStep lrChoiceG [120] (run lrChoiceG [120] (j + 3)) (Call.innerNT 0) s1 = _
    have hbody : run lrChoiceG [120] (j + 3) (Call.exprNT (lrChoiceG.body 0)) s1 =
        Res.ok (setRule 0 ⟨Mode.accept, some 1⟩ (setRulePos 0 (some 1) s1)) := by
      show runStep lrChoiceG [120] (run lrChoiceG [120] (j + 2))
        (Call.exprNT (lrChoiceG.body 0)) s1 = _
      have hrule : run lrChoiceG [120] (j + 1) (Call.ruleNT 0) s1 =
          Res.ok (setRule 0 ⟨Mode.accept, some 1⟩ (setRulePos 0 (some 1) s1)) := by
        show runStep lrChoiceG [120] (run lrChoiceG [120] j) (Call.ruleNT 0) s1 = _
        simp only [runStep, hrules, hpos, if_pos]
      have href : run lrChoiceG [120] (j + 2) (Call.exprNT (Expr.ref 0)) s1 =
          Res.ok (setRule 0 ⟨Mode.accept, some 1⟩ (setRulePos 0 (some 1) s1)) := by
        show runStep lrChoiceG [120] (run lrChoiceG [120] (j + 1))
          (Call.exprNT (Expr.ref 0)) s1 = _
        simp only [runStep]
        exact hrule
      show (match run lrChoiceG [120] (j + 2)
          (Call.exprNT (Expr.ref 0)) s1 with
        | Res.ok s2 => Res.ok s2
        | Res.fail s2 => run lrChoiceG [120] (j + 2) (Call.exprNT (Expr.strE [120]))
            (withCtx (restoreC (snap s1.ctx)) s2)
        | Res.lrOk q s2 => Res.lrOk q s2
        | Res.oof => Res.oof) = _
      rw [href]
    exact hbody

/-- The grow loop of `lrChoiceG` on the grow state of input "x" diverges:
for every fuel, the run ends in fuel exhaustion — the loop never exits,
because every iteration succeeds without progress. -/
theorem lrChoice_grow_diverges :
    ∀ (n : Nat) (s : PState), s.ctx.pos.it = 1 → (s.rules 0).mode = Mode.accept →
      run lrChoiceG [120] n (Call.growNT 0) s = Res.oof := by
  intro n
  induction n with
  | zero => intro s h1 h2; rfl
  | succ n ih =>
    intro s h1 h2
    show runStep lrChoiceG [120] (run lrChoiceG [120] n) (Call.growNT 0) s = Res.oof
    simp only [runStep]
    have hpos1 : (setRulePos 0 (some s.ctx.pos.it) s).ctx.pos.it = 1 := h1
    have hrules1 : (setRulePos 0 (some s.ctx.pos.it) s).rules 0 = ⟨Mode.accept, some 1⟩ := by
      rw [h1]
      show (⟨(s.rules 0).mode, some 1⟩ : RuleState) = ⟨Mode.accept, some 1⟩
      rw [h2]
    rcases lrChoice_iteration_no_progress n (setRulePos 0 (some s.ctx.pos.it) s) hpos1 hrules1 with
      hoof | ⟨s2, hok, hctx, hrules2⟩
    · rw [hoof]
    · rw [hok]
      exact ih s2 (by rw [hctx]; exact h1) (by rw [hrules2])

set_option maxHeartbeats 1000000 in
/-- C1 counterexample: for the left-recursive grammar `a ::= a / "x"` on the
input "x", a growing iteration of the grow loop (one `_parse_non_term` call
from the grow state, after the loop has set the rule position to the current
position) succeeds while ending at the same position 1 it started from, so a
successful iteration need not strictly advance; and the grow loop never exits
(it exhausts the fuel — 8, 10, and by `lrChoice_grow_diverges` also 1000 and
1000000 — and the whole driver call at fuel 12 likewise dies of exhaustion),
instead of restoring and stopping on the non-advancing iteration as the
claim states. -/
theorem c1_counterexample :
    resTag (run lrChoiceG [120] 4 (Call.innerNT 0) (setRulePos 0 (some 1) lrChoiceGrowState)) = 0 ∧
    resPosIt (run lrChoiceG [120] 4 (Call.innerNT 0) (setRulePos 0 (some 1) lrChoiceGrowState)) = some 1 ∧
    lrChoiceGrowState.ctx.pos.it = 1 ∧
    resTag (run lrChoiceG [120] 8 (Call.growNT 0) lrChoiceGrowState) = 3 ∧
    resTag (run lrChoiceG [120] 10 (Call.growNT 0) lrChoiceGrowState) = 3 ∧
    run lrChoiceG [120] 1000 (Call.growNT 0) lrChoiceGrowState = Res.oof ∧
    run lrChoiceG [120] 1000000 (Call.growNT 0) lrChoiceGrowState = Res.oof ∧
    parseInput 12 lrChoiceG [120] 0 = DriverRes.oof :=
  ⟨rfl, rfl, rfl, rfl, rfl, lrChoice_grow_diverges 1000 lrChoiceGrowState rfl rfl,
   lrChoice_grow_diverges 1000000 lrChoiceGrowState rfl rfl, rfl⟩

/-- C1 (amended): the grow loop of the left-recursion engine exits exactly
when a growing iteration fails; it then restores the snapshot taken before
that iteration — the end of the best seed so far — so the restored position
is the pre-iteration position and the match log is truncated back to its
pre-iteration length. (A successful iteration that makes no progress does
not exit the loop, so the loop need not terminate; see the counterexample.) -/
theorem growLoop_exit_on_failed_iteration (G : Grammar) (inp : List Nat) (n : Nat) (r : Nat)
    (s s2 : PState)
    (h : run G inp n (Call.innerNT r) (setRulePos r (some s.ctx.pos.it) s) = Res.fail s2) :
    run G inp (n + 1) (Call.growNT r) s = Res.ok (withCtx (restoreC (snap s.ctx)) s2) ∧
    (withCtx (restoreC (snap s.ctx)) s2).ctx.pos = s.ctx.pos ∧
    (withCtx (restoreC (snap s.ctx)) s2).ctx.mlog.length = s.ctx.mlog.length := by
  have hst : StLe G (setRulePos r (some s.ctx.pos.it) s) s2 :=
    run_inv G inp n (Call.innerNT r) (setRulePos r (some s.ctx.pos.it) s) s2 (by rw [h]; rfl)
  refine ⟨?_, rfl, ?_⟩
  · show runStep G inp (run G inp n) (Call.growNT r) s = _
    simp only [runStep, h]
  · show (s2.ctx.mlog.take s.ctx.mlog.length).length = s.ctx.mlog.length
    rw [List.length_take]
    exact Nat.min_eq_left hst.2.1

/-- Grammar whose rule 0 body is the single character expression `chr 121`;
whitespace is rule 1 with the same body by default. -/
def growFailG : Grammar :=
  ⟨fun _ => Expr.chr 121, fun _ => false, 1⟩

/-- A grow-loop entry state for `growFailG`. -/
def growFailState : PState :=
  ⟨⟨posAt 0, posAt 0, [], 0⟩, fun _ => ⟨Mode.accept, some 5⟩⟩

theorem growLoop_exit_witness :
    run growFailG [120] 6 (Call.growNT 0) growFailState =
      Res.ok (withCtx (restoreC (snap growFailState.ctx)) (setRulePos 0 (some 0) growFailState)) ∧
    (withCtx (restoreC (snap growFailState.ctx)) (setRulePos 0 (some 0) growFailState)).ctx.pos =
      growFailState.ctx.pos := by
  have h := growLoop_exit_on_failed_iteration growFailG [120] 5 0 growFailState
    (setRulePos 0 (some 0) growFailState) rfl
  exact ⟨h.1, h.2.1⟩

/-- Expression variants whose evaluation never moves the context on failure:
the raw single-character matchers (whose failure path only records the
furthest error) and the zero-width predicates (which always restore their
snapshot). -/
inductive PureExpr : Expr → Prop where
  | chr (c : Nat) : PureExpr (Expr.chr c)
  | setE (bits : List Bool) : PureExpr (Expr.setE bits)
  | anyE : PureExpr Expr.anyE
  | eofE : PureExpr Expr.eofE
  | andE (e : Expr) : PureExpr (Expr.andE e)
  | notE (e : Expr) : PureExpr (Expr.notE e)

/-- C2 (amended): backtracking purity holds for the expression variants that
protect themselves — Char, Set, Any, Eof, And and Not — in either evaluation
mode: whenever one of them returns false, the context position and the
match-log length after the call equal their values before it. (Seq, String,
OneOrMore, Newline and Choice can return false with the position advanced:
there, restoration is performed by the enclosing backtracking construct; see
the counterexample.) -/
theorem backtracking_pure_variants (G : Grammar) (inp : List Nat) (e : Expr)
    (he : PureExpr e) (n : Nat) (s s2 : PState)
    (h : run G inp n (Call.exprNT e) s = Res.fail s2 ∨
         run G inp n (Call.exprT e) s = Res.fail s2) :
    s2.ctx.pos = s.ctx.pos ∧ s2.ctx.mlog.length = s.ctx.mlog.length := by
  cases n with
  | zero =>
    rcases h with h | h <;> exact Res.noConfusion h
  | succ n =>
    cases he with
    | chr c0 =>
      have hh : prim2res (charParse inp c0 s.ctx) s = Res.fail s2 := by
        rcases h with h | h <;> exact h
      obtain ⟨hb, hctx⟩ := prim2res_fail hh
      obtain ⟨hp, hm⟩ := charParse_fail_frame inp c0 s.ctx hb
      rw [hctx]
      exact ⟨hp, by rw [hm]⟩
    | setE bits =>
      have hh : prim2res (setParse inp bits s.ctx) s = Res.fail s2 := by
        rcases h with h | h <;> exact h
      obtain ⟨hb, hctx⟩ := prim2res_fail hh
      obtain ⟨hp, hm⟩ := setParse_fail_frame inp bits s.ctx hb
      rw [hctx]
      exact ⟨hp, by rw [hm]⟩
    | anyE =>
      have hh : prim2res (anyParse inp s.ctx) s = Res.fail s2 := by
        rcases h with h | h <;> exact h
      obtain ⟨hb, hctx⟩ := prim2res_fail hh
      obtain ⟨hp, hm⟩ := anyParse_fail_frame inp s.ctx hb
      rw [hctx]
      exact ⟨hp, by rw [hm]⟩
    | eofE =>
      have hh : prim2res (eofParse inp s.ctx) s = Res.fail s2 := by
        rcases h with h | h <;> exact h
      obtain ⟨hb, hctx⟩ := prim2res_fail hh
      rw [hctx]
      exact ⟨rfl, rfl⟩
    | andE e1 =>
      rcases h with h | h
      · simp only [run, runStep] at h
        cases h1 : run G inp n (Call.exprNT e1) s with
        | ok s3 => rw [h1] at h; exact Res.noConfusion h
        | fail s3 =>
          rw [h1] at h
          injection h with h3
          rw [← h3]
          exact restore_frame G (run_inv G inp n (Call.exprNT e1) s s3 (by rw [h1]; rfl))
        | lrOk q s3 => rw [h1] at h; exact Res.noConfusion h
        | oof => rw [h1] at h; exact Res.noConfusion h
      · simp only [run, runStep] at h
        cases h1 : run G inp n (Call.exprT e1) s with
        | ok s3 => rw [h1] at h; exact Res.noConfusion h
        | fail s3 =>
          rw [h1] at h
          injection h with h3
          rw [← h3]
          exact restore_frame G (run_inv G inp n (Call.exprT e1) s s3 (by rw [h1]; rfl))
        | lrOk q s3 => rw [h1] at h; exact Res.noConfusion h
        | oof => rw [h1] at h; exact Res.noConfusion h
    | notE e1 =>
      rcases h with h | h
      · simp only [run, runStep] at h
        cases h1 : run G inp n (Call.exprNT e1) s with
        | ok s3 =>
          rw [h1] at h
          injection h with h3
          rw [← h3]
          exact restore_frame G (run_inv G inp n (Call.exprNT e1) s s3 (by rw [h1]; rfl))
        | fail s3 => rw [h1] at h; exact Res.noConfusion h
        | lrOk q s3 => rw [h1] at h; exact Res.noConfusion h
        | oof => rw [h1] at h; exact Res.noConfusion h
      · simp only [run, runStep] at h
        cases h1 : run G inp n (Call.exprT e1) s with
        | ok s3 =>
          rw [h1] at h
          injection h with h3
          rw [← h3]
          exact restore_frame G (run_inv G inp n (Call.exprT e1) s s3 (by rw [h1]; rfl))
        | fail s3 => rw [h1] at h; exact Res.noConfusion h
        | lrOk q s3 => rw [h1] at h; exact Res.noConfusion h
        | oof => rw [h1] at h; exact Res.noConfusion h

/-- Grammar whose every rule body is a single blank character; rule 9 serves
as the whitespace rule. -/
def plainWsG : Grammar :=
  ⟨fun _ => Expr.chr 32, fun _ => false, 9⟩

/-- C2 counterexample: `Seq(Char a, Char b)` evaluated in non-terminal mode
against the input "ac" returns false with the position advanced to 1 — the
left operand's consumption is not rolled back by the failing `Seq` itself —
so it is not true that every failing sub-expression leaves position and
match-log length unchanged. -/
theorem c2_counterexample :
    resTag (run plainWsG [97, 99] 6 (Call.exprNT (Expr.seqE (Expr.chr 97) (Expr.chr 98))) initState) = 1 ∧
    resPosIt (run plainWsG [97, 99] 6 (Call.exprNT (Expr.seqE (Expr.chr 97) (Expr.chr 98))) initState) = some 1 ∧
    initState.ctx.pos.it = 0 :=
  ⟨rfl, rfl, rfl⟩

/-- Failure state of evaluating `Not(Char 121)` against the input "y". -/
def pureFailOut : PState :=
  (run plainWsG [121] 4 (Call.exprNT (Expr.notE (Expr.chr 121))) initState).state?.getD initState

theorem backtracking_pure_witness :
    pureFailOut.ctx.pos = initState.ctx.pos ∧
    pureFailOut.ctx.mlog.length = initState.ctx.mlog.length :=
  backtracking_pure_variants plainWsG [121] (Expr.notE (Expr.chr 121))
    (PureExpr.notE (Expr.chr 121)) 4 initState pureFailOut (Or.inl rfl)

/-- C3 (amended): `String(cs)` is not all-or-nothing. It consumes matching
characters one at a time: it returns true exactly when the full string
matches, having advanced the position by the length of `cs`; when the match
fails partway, the position after the call is the position before it plus
the length of the longest matched proper prefix — the consumed prefix is
not rolled back (only the furthest-error position is additionally updated,
and the match log is never touched). Both evaluation modes are this same
function. -/
theorem string_match_behavior (inp cs : List Nat) (c : Ctx) :
    (strParse inp cs c).2.pos.it = c.pos.it + matchedLen inp cs c ∧
    ((strParse inp cs c).1 = true ↔ matchedLen inp cs c = cs.length) ∧
    (strParse inp cs c).2.mlog = c.mlog ∧
    ((strParse inp cs c).1 = false → matchedLen inp cs c < cs.length) ∧
    (∀ (G : Grammar) (s : PState) (n : Nat),
      run G inp (n + 1) (Call.exprNT (Expr.strE cs)) s = prim2res (strParse inp cs s.ctx) s ∧
      run G inp (n + 1) (Call.exprT (Expr.strE cs)) s = prim2res (strParse inp cs s.ctx) s) := by
  obtain ⟨hpos, hiff, hmlog⟩ := strLoop_spec inp cs c
  have hfst : (strParse inp cs c).1 = (strLoop inp cs c).1 := by
    unfold strParse
    cases hb : (strLoop inp cs c).1 <;> simp [hb]
  have hsnd_pos : (strParse inp cs c).2.pos = (strLoop inp cs c).2.pos := by
    unfold strParse
    cases hb : (strLoop inp cs c).1 <;> simp [hb, setErrorPos_pos]
  have hsnd_mlog : (strParse inp cs c).2.mlog = (strLoop inp cs c).2.mlog := by
    unfold strParse
    cases hb : (strLoop inp cs c).1 <;> simp [hb, setErrorPos_mlog]
  refine ⟨?_, ?_, ?_, ?_, ?_⟩
  · rw [hsnd_pos]
    exact hpos
  · rw [hfst]
    exact hiff
  · rw [hsnd_mlog]
    exact hmlog
  · intro hfalse
    rw [hfst] at hfalse
    rcases Nat.lt_or_ge (matchedLen inp cs c) cs.length with hlt | hge
    · exact hlt
    · exfalso
      have heq : matchedLen inp cs c = cs.length :=
        Nat.le_antisymm (matchedLen_le inp cs c) hge
      rw [hiff.mpr heq] at hfalse
      cases hfalse
  · intro G s n
    exact ⟨rfl, rfl⟩

/-- C3 counterexample: `String "ab"` evaluated against the input "ac"
returns false with the position advanced to 1 (past the matched prefix "a"),
not restored to 0, so the evaluation is not all-or-nothing. -/
theorem c3_counterexample :
    resTag (run plainWsG [97, 99] 3 (Call.exprNT (Expr.strE [97, 98])) initState) = 1 ∧
    resPosIt (run plainWsG [97, 99] 3 (Call.exprNT (Expr.strE [97, 98])) initState) = some 1 ∧
    initState.ctx.pos.it = 0 :=
  ⟨rfl, rfl, rfl⟩

theorem string_match_witness :
    matchedLen [97, 99] [97, 98] initState.ctx < 2 ∧
    (strParse [97, 99] [97, 98] initState.ctx).2.pos.it = 1 := by
  constructor
  · exact (string_match_behavior [97, 99] [97, 98] initState.ctx).2.2.2.1 rfl
  · rw [(string_match_behavior [97, 99] [97, 98] initState.ctx).1]
    rfl

/-- C4: the engine's left-recursive re-entry behaviour. When
`parse_non_term` is invoked on a rule whose mode is REJECT at the same input
position as the in-flight invocation (the `lr` condition), it returns false;
when invoked on a rule in ACCEPT mode at the rule's recorded position, it
returns true immediately. In both cases the context is untouched (no input
consumed, no match-log or error change) and every rule's state is restored
to its entry value. -/
theorem engine_reject_accept_lr (G : Grammar) (inp : List Nat) (n : Nat) (r : Nat) (s : PState)
    (hlr : (s.rules r).lastPos = some s.ctx.pos.it) :
    ((s.rules r).mode = Mode.reject →
      run G inp (n + 1) (Call.ruleNT r) s =
        Res.fail (setRule r (s.rules r) (setRulePos r (some s.ctx.pos.it) s)) ∧
      (setRule r (s.rules r) (setRulePos r (some s.ctx.pos.it) s)).ctx = s.ctx ∧
      ∀ i, (setRule r (s.rules r) (setRulePos r (some s.ctx.pos.it) s)).rules i = s.rules i) ∧
    ((s.rules r).mode = Mode.accept →
      run G inp (n + 1) (Call.ruleNT r) s =
        Res.ok (setRule r (s.rules r) (setRulePos r (some s.ctx.pos.it) s)) ∧
      (setRule r (s.rules r) (setRulePos r (some s.ctx.pos.it) s)).ctx = s.ctx ∧
      ∀ i, (setRule r (s.rules r) (setRulePos r (some s.ctx.pos.it) s)).rules i = s.rules i) := by
  have hrules : ∀ i, (setRule r (s.rules r) (setRulePos r (some s.ctx.pos.it) s)).rules i = s.rules i := by
    intro i
    by_cases hi : i = r
    · subst hi
      simp [setRule]
    · simp [setRule, setRulePos, hi]
  constructor
  · intro hm
    refine ⟨?_, rfl, hrules⟩
    show runStep G inp (run G inp n) (Call.ruleNT r) s = _
    simp only [runStep, hm, hlr, if_pos]
  · intro hm
    refine ⟨?_, rfl, hrules⟩
    show runStep G inp (run G inp n) (Call.ruleNT r) s = _
    simp only [runStep, hm, hlr, if_pos]

/-- Grammar and rule state for the C4 witness: rule 0 in REJECT mode with
recorded position 0, and a second state with rule 0 in ACCEPT mode. -/
def c4G : Grammar :=
  ⟨fun _ => Expr.chr 32, fun _ => false, 1⟩

def c4RejState : PState :=
  ⟨⟨posAt 0, posAt 0, [], 0⟩, fun i => if i = 0 then ⟨Mode.reject, some 0⟩ else initRuleState⟩

def c4AccState : PState :=
  ⟨⟨posAt 0, posAt 0, [], 0⟩, fun i => if i = 0 then ⟨Mode.accept, some 0⟩ else initRuleState⟩

theorem engine_reject_accept_lr_witness :
    resTag (run c4G [] 3 (Call.ruleNT 0) c4RejState) = 1 ∧
    resPosIt (run c4G [] 3 (Call.ruleNT 0) c4RejState) = some 0 ∧
    resTag (run c4G [] 3 (Call.ruleNT 0) c4AccState) = 0 ∧
    resPosIt (run c4G [] 3 (Call.ruleNT 0) c4AccState) = some 0 := by
  obtain ⟨he1, hc1, hr1⟩ := (engine_reject_accept_lr c4G [] 2 0 c4RejState rfl).1 rfl
  obtain ⟨he2, hc2, hr2⟩ := (engine_reject_accept_lr c4G [] 2 0 c4AccState rfl).2 rfl
  rw [he1, he2]
  exact ⟨rfl, rfl, rfl, rfl⟩

/-- Mutual left-recursive grammar `A ::= B "+" A / B ; B ::= A "*" B / "i"`
with rules A = 0, B = 1 and whitespace rule 2 (a blank). -/
def mutualLrG : Grammar :=
  ⟨fun i =>
    if i = 0 then
      Expr.choice (Expr.seqE (Expr.seqE (Expr.ref 1) (Expr.chr 43)) (Expr.ref 0)) (Expr.ref 1)
    else if i = 1 then
      Expr.choice (Expr.seqE (Expr.seqE (Expr.ref 0) (Expr.chr 42)) (Expr.ref 1)) (Expr.chr 105)
    else Expr.chr 32,
  fun _ => false, 2⟩

/-- Mid-parse entry state of the inner invocation of rule A (id 0) at
position 0 while outer invocations of both A and B are in flight at position
0 (both rules in PARSE mode with recorded position 0) — exactly the state of
the second, left-recursion-detecting call on A during a top-level parse of
"i". -/
def mutualLrMid : PState :=
  ⟨⟨posAt 0, posAt 0, [], 0⟩,
   fun i => if i = 0 then ⟨Mode.parse, some 0⟩
     else if i = 1 then ⟨Mode.parse, some 0⟩ else initRuleState⟩

/-- C5 counterexample: on the mutual left-recursive grammar
`A ::= B "+" A / B ; B ::= A "*" B / "i"` with input "i", the invocation of
`parse_non_term` on rule A from `mutualLrMid` exits by propagating the
left-recursion completion signal of rule B (result `lrOk 1`), and at that
exit rule A's state is (REJECT, 0) — the mode set by A's own seed phase —
although it was (PARSE, 0) on entry: the REJECT-mode frame that the signal
unwinds through never restores the rule state. -/
theorem c5_counterexample :
    resTag (run mutualLrG [105] 25 (Call.ruleNT 0) mutualLrMid) = 2 ∧
    resLr (run mutualLrG [105] 25 (Call.ruleNT 0) mutualLrMid) = some 1 ∧
    resRuleMode (run mutualLrG [105] 25 (Call.ruleNT 0) mutualLrMid) 0 = some Mode.reject ∧
    (mutualLrMid.rules 0).mode = Mode.parse :=
  ⟨rfl, rfl, rfl, rfl⟩

/-- Rule used by the C5 witness: rule 0 is a plain character rule. -/
def c5okG : Grammar :=
  ⟨fun _ => Expr.chr 120, fun _ => false, 1⟩

def c5okOut : PState :=
  (run c5okG [120] 5 (Call.ruleNT 0) initState).state?.getD initState

theorem ruleState_restored_witness :
    c5okOut.rules 0 = initState.rules 0 :=
  (ruleState_restored_core c5okG [120] 5 0 initState c5okOut).1 rfl

/-- C6: furthest-error monotonicity. `set_error_pos` replaces the recorded
error position only when the current iterator strictly exceeds it (and never
lowers it); `restore` leaves the error position untouched; and across any
interpreter run — hence across an entire parse — the recorded error
position's iterator never decreases. -/
theorem furthest_error_monotone :
    (∀ c : Ctx, c.errorPos.it ≤ (setErrorPos c).errorPos.it ∧
      setErrorPos c = (if c.errorPos.it < c.pos.it then { c with errorPos := c.pos } else c)) ∧
    (∀ (st : Snap) (c : Ctx), (restoreC st c).errorPos = c.errorPos) ∧
    (∀ (G : Grammar) (inp : List Nat) (n : Nat) (c : Call) (s s2 : PState),
      (run G inp n c s).state? = some s2 → s.ctx.errorPos.it ≤ s2.ctx.errorPos.it) := by
  refine ⟨?_, fun st c => rfl, fun G inp n c s s2 h => (run_inv G inp n c s s2 h).1⟩
  intro c
  constructor
  · unfold setErrorPos
    split
    · exact le_of_lt (by assumption)
    · exact le_refl _
  · rfl

/-- Failure state with an advanced error position: evaluating
`Seq(Char a, Char b)` on "ac" fails at position 1 and pushes the furthest
error to 1. -/
def c6Out : PState :=
  (run plainWsG [97, 99] 6 (Call.exprNT (Expr.seqE (Expr.chr 97) (Expr.chr 98))) initState).state?.getD initState

theorem furthest_error_monotone_witness :
    initState.ctx.errorPos.it ≤ c6Out.ctx.errorPos.it ∧ c6Out.ctx.errorPos.it = 1 :=
  ⟨furthest_error_monotone.2.2 plainWsG [97, 99] 6
    (Call.exprNT (Expr.seqE (Expr.chr 97) (Expr.chr 98))) initState c6Out rfl, rfl⟩

/-- C7: outcomes of the driver `parse`. Given the state `s1` left by the
leading-whitespace pass (whose boolean outcome is discarded): if the grammar
rule fails, the driver emits exactly one SYNTAX error at the furthest-error
position and returns failure; if the grammar succeeds and, after the
trailing-whitespace pass ending in state `s3`, end-of-input is reached, the
driver runs the action dispatch pass over the final match log and returns
success; if input remains, it emits exactly one error — SYNTAX when the
furthest-error position is strictly before end-of-input, INVALID_EOF
otherwise — and returns failure. -/
theorem driver_outcomes (fuel : Nat) (G : Grammar) (inp : List Nat) (g : Nat) (s1 : PState)
    (h1 : run G inp fuel Call.wsCall initState = Res.ok s1 ∨
          run G inp fuel Call.wsCall initState = Res.fail s1) :
    (∀ s2, run G inp fuel (Call.ruleNT g) s1 = Res.fail s2 →
      parseInput fuel G inp g = DriverRes.failed [synError s2.ctx]) ∧
    (∀ s2 s3, run G inp fuel (Call.ruleNT g) s1 = Res.ok s2 →
      (run G inp fuel Call.wsCall s2 = Res.ok s3 ∨ run G inp fuel Call.wsCall s2 = Res.fail s3) →
      ((atEnd inp s3.ctx = true →
        parseInput fuel G inp g = DriverRes.succeeded (doParseProcs G s3.ctx.mlog)) ∧
       (atEnd inp s3.ctx = false → s3.ctx.errorPos.it < inp.length →
        parseInput fuel G inp g = DriverRes.failed [synError s3.ctx]) ∧
       (atEnd inp s3.ctx = false → ¬ s3.ctx.errorPos.it < inp.length →
        parseInput fuel G inp g = DriverRes.failed [eofError s3.ctx]))) := by
  constructor
  · intro s2 h2
    unfold parseInput
    rcases h1 with h1 | h1
    all_goals (rw [h1]; dsimp only; rw [h2])
  · intro s2 s3 h2 h3
    refine ⟨?_, ?_, ?_⟩
    · intro hEnd
      unfold parseInput
      rcases h1 with h1 | h1
      all_goals (rw [h1]; dsimp only; rw [h2]; dsimp only)
      all_goals rcases h3 with h3 | h3
      all_goals (rw [h3]; dsimp only; rw [if_pos hEnd])
    · intro hEnd hlt
      have hneg : ¬ atEnd inp s3.ctx = true := by simp [hEnd]
      unfold parseInput
      rcases h1 with h1 | h1
      all_goals (rw [h1]; dsimp only; rw [h2]; dsimp only)
      all_goals rcases h3 with h3 | h3
      all_goals (rw [h3]; dsimp only; rw [if_neg hneg, if_pos hlt])
    · intro hEnd hlt
      have hneg : ¬ atEnd inp s3.ctx = true := by simp [hEnd]
      unfold parseInput
      rcases h1 with h1 | h1
      all_goals (rw [h1]; dsimp only; rw [h2]; dsimp only)
      all_goals rcases h3 with h3 | h3
      all_goals (rw [h3]; dsimp only; rw [if_neg hneg, if_neg hlt])

/-- Grammar for the C7 witness: rule 0 matches the single character "x",
rule 1 (a blank) is whitespace. -/
def c7G : Grammar :=
  ⟨fun i => if i = 0 then Expr.chr 120 else Expr.chr 32, fun _ => false, 1⟩

/-- State after the (failing, hence consuming nothing) leading-whitespace
pass on the input "y". -/
def c7s1 : PState :=
  (run c7G [121] 10 Call.wsCall initState).state?.getD initState

/-- State after the failing grammar attempt on the input "y". -/
def c7s2 : PState :=
  (run c7G [121] 10 (Call.ruleNT 0) c7s1).state?.getD initState

theorem driver_outcomes_witness :
    parseInput 10 c7G [121] 0 = DriverRes.failed [synError c7s2.ctx] ∧
    (synError c7s2.ctx).kind = ErrKind.synErr :=
  ⟨(driver_outcomes 10 c7G [121] 0 c7s1 (Or.inr rfl)).1 c7s2 rfl, rfl⟩

/-- C8: whitespace scoping. Terminal-mode evaluation of any expression — and
of any rule through the terminal engine entry point — never invokes the
whitespace rule (the ghost `parse_ws` counter is unchanged on every outcome
that yields a state), and both evaluation entry points of `Terminal(e)`
delegate to the child's terminal-mode evaluation, so nothing inside a
`Terminal(·)` subtree ever invokes the whitespace rule. -/
theorem whitespace_scoping (G : Grammar) (inp : List Nat) (n : Nat) (e : Expr) (s : PState) :
    WsRes s (run G inp n (Call.exprT e) s) ∧
    (∀ r : Nat, WsRes s (run G inp n (Call.ruleT r) s)) ∧
    run G inp (n + 1) (Call.exprNT (Expr.termE e)) s = run G inp n (Call.exprT e) s ∧
    run G inp (n + 1) (Call.exprT (Expr.termE e)) s = run G inp n (Call.exprT e) s :=
  ⟨run_ws G inp n (Call.exprT e) s rfl, fun r => run_ws G inp n (Call.ruleT r) s rfl, rfl, rfl⟩

/-- Terminal evaluation state reached by matching "x" in terminal mode. -/
def c8Out : PState :=
  (run plainWsG [120] 4 (Call.exprT (Expr.seqE (Expr.chr 120) Expr.eofE)) initState).state?.getD initState

theorem whitespace_scoping_witness :
    c8Out.ctx.wsCalls = initState.ctx.wsCalls ∧ initState.ctx.wsCalls = 0 :=
  ⟨(whitespace_scoping plainWsG [120] 4 (Expr.seqE (Expr.chr 120) Expr.eofE) initState).1
    c8Out rfl, rfl⟩

/-- C9: every match record in the log at dispatch time refers to a rule with
a registered parse proc, so the action dispatch pass of a successful driver
call never invokes a null callback: the dispatched list exists and every
dispatched record's rule has a registered proc. -/
theorem dispatch_no_null_proc (fuel : Nat) (G : Grammar) (inp : List Nat) (g : Nat)
    (disp : Option (List MatchRec)) (h : parseInput fuel G inp g = DriverRes.succeeded disp) :
    ∃ l, disp = some l ∧ ∀ m ∈ l, G.hasProc m.rule = true := by
  unfold parseInput at h
  cases hw : run G inp fuel Call.wsCall initState with
  | oof => rw [hw] at h; exact DriverRes.noConfusion h
  | lrOk q s0 => rw [hw] at h; exact DriverRes.noConfusion h
  | ok s1 =>
    rw [hw] at h
    dsimp only at h
    have inv1 : ∀ m ∈ s1.ctx.mlog, G.hasProc m.rule = true :=
      (run_inv G inp fuel Call.wsCall initState s1 (by rw [hw]; rfl)).2.2
        (fun m hm => absurd hm (List.not_mem_nil m))
    cases hg : run G inp fuel (Call.ruleNT g) s1 with
    | oof => rw [hg] at h; exact DriverRes.noConfusion h
    | lrOk q s2 => rw [hg] at h; exact DriverRes.noConfusion h
    | fail s2 => rw [hg] at h; exact DriverRes.noConfusion h
    | ok s2 =>
      rw [hg] at h
      dsimp only at h
      have inv2 : ∀ m ∈ s2.ctx.mlog, G.hasProc m.rule = true :=
        (run_inv G inp fuel (Call.ruleNT g) s1 s2 (by rw [hg]; rfl)).2.2 inv1
      cases hw2 : run G inp fuel Call.wsCall s2 with
      | oof => rw [hw2] at h; exact DriverRes.noConfusion h
      | lrOk q s3 => rw [hw2] at h; exact DriverRes.noConfusion h
      | ok s3 =>
        rw [hw2] at h
        dsimp only at h
        have inv3 : ∀ m ∈ s3.ctx.mlog, G.hasProc m.rule = true :=
          (run_inv G inp fuel Call.wsCall s2 s3 (by rw [hw2]; rfl)).2.2 inv2
        by_cases hEnd : atEnd inp s3.ctx = true
        · rw [if_pos hEnd] at h
          injection h with h3
          exact ⟨s3.ctx.mlog, by rw [← h3, doParseProcs_all G s3.ctx.mlog inv3], inv3⟩
        · rw [if_neg hEnd] at h
          split at h <;> exact DriverRes.noConfusion h
      | fail s3 =>
        rw [hw2] at h
        dsimp only at h
        have inv3 : ∀ m ∈ s3.ctx.mlog, G.hasProc m.rule = true :=
          (run_inv G inp fuel Call.wsCall s2 s3 (by rw [hw2]; rfl)).2.2 inv2
        by_cases hEnd : atEnd inp s3.ctx = true
        · rw [if_pos hEnd] at h
          injection h with h3
          exact ⟨s3.ctx.mlog, by rw [← h3, doParseProcs_all G s3.ctx.mlog inv3], inv3⟩
        · rw [if_neg hEnd] at h
          split at h <;> exact DriverRes.noConfusion h
  | fail s1 =>
    rw [hw] at h
    dsimp only at h
    have inv1 : ∀ m ∈ s1.ctx.mlog, G.hasProc m.rule = true :=
      (run_inv G inp fuel Call.wsCall initState s1 (by rw [hw]; rfl)).2.2
        (fun m hm => absurd hm (List.not_mem_nil m))
    cases hg : run G inp fuel (Call.ruleNT g) s1 with
    | oof => rw [hg] at h; exact DriverRes.noConfusion h
    | lrOk q s2 => rw [hg] at h; exact DriverRes.noConfusion h
    | fail s2 => rw [hg] at h; exact DriverRes.noConfusion h
    | ok s2 =>
      rw [hg] at h
      dsimp only at h
      have inv2 : ∀ m ∈ s2.ctx.mlog, G.hasProc m.rule = true :=
        (run_inv G inp fuel (Call.ruleNT g) s1 s2 (by rw [hg]; rfl)).2.2 inv1
      cases hw2 : run G inp fuel Call.wsCall s2 with
      | oof => rw [hw2] at h; exact DriverRes.noConfusion h
      | lrOk q s3 => rw [hw2] at h; exact DriverRes.noConfusion h
      | ok s3 =>
        rw [hw2] at h
        dsimp only at h
        have inv3 : ∀ m ∈ s3.ctx.mlog, G.hasProc m.rule = true :=
          (run_inv G inp fuel Call.wsCall s2 s3 (by rw [hw2]; rfl)).2.2 inv2
        by_cases hEnd : atEnd inp s3.ctx = true
        · rw [if_pos hEnd] at h
          injection h with h3
          exact ⟨s3.ctx.mlog, by rw [← h3, doParseProcs_all G s3.ctx.mlog inv3], inv3⟩
        · rw [if_neg hEnd] at h
          split at h <;> exact DriverRes.noConfusion h
      | fail s3 =>
        rw [hw2] at h
        dsimp only at h
        have inv3 : ∀ m ∈ s3.ctx.mlog, G.hasProc m.rule = true :=
          (run_inv G inp fuel Call.wsCall s2 s3 (by rw [hw2]; rfl)).2.2 inv2
        by_cases hEnd : atEnd inp s3.ctx = true
        · rw [if_pos hEnd] at h
          injection h with h3
          exact ⟨s3.ctx.mlog, by rw [← h3, doParseProcs_all G s3.ctx.mlog inv3], inv3⟩
        · rw [if_neg hEnd] at h
          split at h <;> exact DriverRes.noConfusion h

/-- Grammar for the C9 witness: rule 0 matches "x" and has a registered
parse proc; rule 1 (a blank) is whitespace, without a proc. -/
def c9G : Grammar :=
  ⟨fun i => if i = 0 then Expr.chr 120 else Expr.chr 32, fun i => i == 0, 1⟩

theorem dispatch_no_null_proc_witness :
    parseInput 20 c9G [120] 0 = DriverRes.succeeded (some [⟨0, posAt 0, posAt 1⟩]) ∧
    (some [(⟨0, posAt 0, posAt 1⟩ : MatchRec)] : Option (List MatchRec)) ≠ none := by
  refine ⟨rfl, ?_⟩
  obtain ⟨l, hl, _⟩ := dispatch_no_null_proc 20 c9G [120] 0 (some [⟨0, posAt 0, posAt 1⟩]) rfl
  rw [hl]
  exact fun hcon => Option.noConfusion hcon

/-- C10: in non-terminal mode, `ZeroOrMore(e)` first skips whitespace (ending
in state `s1`) and only then takes its restore snapshot; so when the first
attempt at `e` fails, the evaluation still returns true and the restored
position is `s1`'s position — after the whitespace skip — not the position
before it: leading whitespace consumed before a failed first attempt is not
rolled back. -/
theorem loop0_leading_ws (G : Grammar) (inp : List Nat) (n : Nat) (e : Expr)
    (s s1 s2 : PState)
    (hws : run G inp n Call.wsCall s = Res.ok s1 ∨ run G inp n Call.wsCall s = Res.fail s1)
    (hfail : run G inp n (Call.exprNT e) s1 = Res.fail s2) :
    run G inp (n + 1) (Call.exprNT (Expr.loop0 e)) s =
      Res.ok (withCtx (restoreC (snap s1.ctx)) s2) ∧
    (withCtx (restoreC (snap s1.ctx)) s2).ctx.pos = s1.ctx.pos := by
  refine ⟨?_, rfl⟩
  show runStep G inp (run G inp n) (Call.exprNT (Expr.loop0 e)) s = _
  rcases hws with hws | hws <;> simp only [runStep, hws, Res.cont, hfail]

/-- Grammar for the C10 witness: whitespace (rule 1) is a blank. -/
def c10G : Grammar :=
  ⟨fun _ => Expr.chr 32, fun _ => false, 1⟩

/-- State after skipping the leading blank of the input " x". -/
def c10s1 : PState :=
  (run c10G [32, 120] 7 Call.wsCall initState).state?.getD initState

/-- State after the failed first attempt of `Char 121` at position 1. -/
def c10s2 : PState :=
  (run c10G [32, 120] 7 (Call.exprNT (Expr.chr 121)) c10s1).state?.getD initState

theorem loop0_leading_ws_witness :
    run c10G [32, 120] 8 (Call.exprNT (Expr.loop0 (Expr.chr 121))) initState =
      Res.ok (withCtx (restoreC (snap c10s1.ctx)) c10s2) ∧
    c10s1.ctx.pos.it = 1 ∧ initState.ctx.pos.it = 0 :=
  ⟨(loop0_leading_ws c10G [32, 120] 7 (Expr.chr 121) initState c10s1 c10s2
      (Or.inl rfl) rfl).1, rfl, rfl⟩

end Pegmatite
